import Mathlib

/-!
Rock-paper-scissors mini app: the game component.

A shallow embedding of `src/components/Game.jsx`: the constants, the two pure
helpers (`getComputerChoice`, `determineWinner`), the event handlers of the
`Game` component written as state transformers, and the event loop that
interleaves the user actions enabled by the rendered screen with the
completions of the asynchronous handlers.
-/

namespace Game

/-! ## JavaScript values held in the component state -/

/-- The JavaScript values the component stores in its round and wallet fields:
`null`, `undefined` or a string. Strict equality `===` on these values is
structural equality. -/
inductive Val where
  | null
  | undefined
  | str (s : String)
  deriving DecidableEq, Repr

/-- JavaScript truthiness of a value, as tested by `!walletAddress`. -/
def Val.truthy : Val → Bool
  | .null => false
  | .undefined => false
  | .str s => s != ""

/-! ## Constants -/

/-- `const CHOICES = ['rock', 'paper', 'scissors']`. -/
def CHOICES : List String := ["rock", "paper", "scissors"]

/-- `const ENTRY_FEE = '0.000001'`, the fee shown on the initial screen. -/
def ENTRY_FEE : String := "0.000001"

/-- `const TREASURY_ADDRESS`, the placeholder zero address. -/
def TREASURY_ADDRESS : String := "0x0000000000000000000000000000000000000000"

/-! ## Pure helpers -/

/-- The integer nearest to `y`, the even one of the two when `y` lies halfway. -/
def roundHalfEven (y : ℚ) : ℤ :=
  let n : ℤ := Rat.floor y
  let frac : ℚ := y - n
  if frac < 1 / 2 then n
  else if 1 / 2 < frac then n + 1
  else if n % 2 = 0 then n else n + 1

/-- The Number (IEEE 754 binary64) nearest to the rational `x`, ties to the even
significand: the rounding every arithmetic operation on Numbers ends with. The
significand has 53 bits and the exponent of the unit in the last place is at
least `-1074`. Magnitudes of `2^1024` and above, which round to `Infinity`, are
outside the model; the product below stays under 3. -/
def roundDouble (x : ℚ) : ℚ :=
  if x = 0 then 0
  else
    let exponent : ℤ := max (Int.log 2 |x|) (-1022)
    let ulp : ℚ := (2 : ℚ) ^ (exponent - 52)
    (if x < 0 then -1 else 1) * (roundHalfEven (|x| / ulp) : ℚ) * ulp

/-- The rational `x` is a Number: rounding leaves it as it is. -/
def IsDouble (x : ℚ) : Prop := roundDouble x = x

instance (x : ℚ) : Decidable (IsDouble x) := by
  unfold IsDouble
  infer_instance

/-- `getComputerChoice`, with the Number `Math.random()` returns passed in as
`r`: `CHOICES[Math.floor(r * CHOICES.length)]`, the product rounded to a Number.
An index outside the array reads `undefined`. -/
def getComputerChoice (r : ℚ) : Val :=
  let randomIndex : Int := Rat.floor (roundDouble (r * (CHOICES.length : ℚ)))
  if randomIndex < 0 then Val.undefined
  else
    match CHOICES[randomIndex.toNat]? with
    | some c => Val.str c
    | none => Val.undefined

/-- `determineWinner(player, computer)`. -/
def determineWinner (player computer : Val) : Val :=
  if player = computer then Val.str "draw"
  else if (player = Val.str "rock" ∧ computer = Val.str "scissors") ∨
      (player = Val.str "paper" ∧ computer = Val.str "rock") ∨
      (player = Val.str "scissors" ∧ computer = Val.str "paper") then Val.str "win"
  else Val.str "lose"

/-- The beats-relation of the rules card: rock beats scissors, paper beats
rock, scissors beats paper. -/
def Beats (a b : String) : Prop :=
  (a = "rock" ∧ b = "scissors") ∨ (a = "paper" ∧ b = "rock") ∨
    (a = "scissors" ∧ b = "paper")

instance (a b : String) : Decidable (Beats a b) := by
  unfold Beats
  infer_instance

/-! ## Component state -/

/-- The values `gameState` takes: `'initial'`, `'playing'`, `'result'`. -/
inductive Phase where
  | initial
  | playing
  | result
  deriving DecidableEq, Repr

/-- The seven `useState` cells of the `Game` component. -/
structure State where
  gameState : Phase
  playerChoice : Val
  computerChoice : Val
  result : Val
  walletAddress : Val
  isConnecting : Bool
  isPaying : Bool
  deriving DecidableEq, Repr

/-- The state on mount: the default of every `useState` call. -/
def State.init : State :=
  { gameState := Phase.initial, playerChoice := Val.null, computerChoice := Val.null,
    result := Val.null, walletAddress := Val.null, isConnecting := false, isPaying := false }

/-! ## The host: mini-app SDK and wallet provider

The host is an external collaborator. Each handler run receives the answers
the host gives during that run. -/

/-- A thrown value or the reason a promise is rejected with, as far as a
`catch` block looks at it: `null` or `undefined`, on which reading `.message`
throws a `TypeError`, or any other value, with the text of its `message`
property (empty when the property is missing or falsy). -/
inductive Err where
  | nullish
  | value (message : String)
  deriving DecidableEq, Repr

/-- The parameter object of an `eth_sendTransaction` request: its `from`, `to`
and `value` fields. -/
structure Tx where
  from_ : Val
  to_ : String
  value : String
  deriving DecidableEq, Repr

/-- The answers of `provider.request` for the three methods the component
calls: rejection with an error, or the resolved value. An account list that
resolves to `null`/`undefined` is `none`. -/
structure Provider where
  eth_accounts : Except Err (Option (List String))
  eth_requestAccounts : Except Err (Option (List String))
  eth_sendTransaction : Tx → Except Err String

/-- The object `sdk.wallet`: `getEthereumProvider()` rejects, or resolves to a
provider or to a falsy value (`none`). -/
structure Wallet where
  getEthereumProvider : Except Err (Option Provider)

/-- The SDK object: `wallet` is `none` when `sdk.wallet` is falsy. -/
structure Sdk where
  wallet : Option Wallet

/-- What a handler does to the outside world, in order: blocking alerts,
requests sent to the provider, and an error that leaves the handler uncaught
(its promise rejects). Console logging is not recorded. -/
inductive Effect where
  | alert (message : String)
  | request (method : String) (params : List Tx)
  | uncaught
  deriving DecidableEq, Repr

/-! ## Handlers -/

/-- The `try` block of `connectWallet`: the state after it, the requests it
sent, and the error it threw, if any. -/
def connectWalletTry (sdk : Sdk) (s : State) : State × List Effect × Option Err :=
  match sdk.wallet with
  | none => (s, [], some (Err.value "Wallet SDK not available"))
  | some wallet =>
    match wallet.getEthereumProvider with
    | .error e => (s, [], some e)
    | .ok none => (s, [], some (Err.value "Ethereum provider not available"))
    | .ok (some provider) =>
      match provider.eth_requestAccounts with
      | .error e => (s, [Effect.request "eth_requestAccounts" []], some e)
      | .ok (some (account :: _)) =>
        ({ s with walletAddress := Val.str account },
          [Effect.request "eth_requestAccounts" []], none)
      | .ok _ =>
        (s, [Effect.request "eth_requestAccounts" []], some (Err.value "No accounts found"))

/-- The text of the alert in the `catch` block of `connectWallet`, for the
`message` read from the caught error. -/
def connectionAlert (message : String) : String :=
  let errorMessage := if message = "" then "Failed to connect wallet" else message
  "Connection Error: " ++ errorMessage ++
    ". Make sure you're using this app within Farcaster."

/-- The part of `connectWallet` before its first `await`: `setIsConnecting(true)`. -/
def connectWalletBegin (s : State) : State :=
  { s with isConnecting := true }

/-- The rest of `connectWallet`: the `try` block, the `catch` block, and the
`finally` block that clears `isConnecting`. The `catch` block reads
`error.message` and alerts; on a `null` or `undefined` error that read throws,
no alert is shown and the error leaves the handler after the `finally` block. -/
def connectWalletEnd (sdk : Sdk) (s : State) : State × List Effect :=
  match connectWalletTry sdk s with
  | (s1, out, some (Err.value message)) =>
    ({ s1 with isConnecting := false }, out ++ [Effect.alert (connectionAlert message)])
  | (s1, out, some Err.nullish) =>
    ({ s1 with isConnecting := false }, out ++ [Effect.uncaught])
  | (s1, out, none) => ({ s1 with isConnecting := false }, out)

/-- `connectWallet`, run without interruption. -/
def connectWallet (sdk : Sdk) (s : State) : State × List Effect :=
  connectWalletEnd sdk (connectWalletBegin s)

/-- `disconnectWallet`. -/
def disconnectWallet (s : State) : State :=
  { s with walletAddress := Val.null, gameState := Phase.initial, playerChoice := Val.null,
           computerChoice := Val.null, result := Val.null }

/-- `'0x' + (1000000000000).toString(16)`. -/
def valueInWei : String :=
  "0x" ++ String.mk (Nat.toDigits 16 1000000000000)

/-- The `try` block of `handlePayment`, for the `walletAddress` captured when
the handler was called: the state after it, the requests it sent, and whether
it threw. A missing `sdk.wallet` or provider throws a `TypeError` on the
member access. -/
def handlePaymentTry (sdk : Sdk) (walletAddress : Val) (s : State) :
    State × List Effect × Bool :=
  match sdk.wallet with
  | none => (s, [], true)
  | some wallet =>
    match wallet.getEthereumProvider with
    | .error _ => (s, [], true)
    | .ok none => (s, [], true)
    | .ok (some provider) =>
      let tx : Tx := { from_ := walletAddress, to_ := TREASURY_ADDRESS, value := valueInWei }
      match provider.eth_sendTransaction tx with
      | .error _ => (s, [Effect.request "eth_sendTransaction" [tx]], true)
      | .ok _ =>
        ({ s with gameState := Phase.playing }, [Effect.request "eth_sendTransaction" [tx]], false)

/-- The part of `handlePayment` after `setIsPaying(true)`: the `try` block, the
`catch` block that alerts, and the `finally` block that clears `isPaying`. -/
def handlePaymentEnd (sdk : Sdk) (walletAddress : Val) (s : State) : State × List Effect :=
  match handlePaymentTry sdk walletAddress s with
  | (s1, out, true) =>
    ({ s1 with isPaying := false }, out ++ [Effect.alert "Payment failed. Please try again."])
  | (s1, out, false) => ({ s1 with isPaying := false }, out)

/-- The part of `handlePayment` before its first `await` when a wallet is
connected: `setIsPaying(true)`. -/
def handlePaymentBegin (s : State) : State :=
  { s with isPaying := true }

/-- `handlePayment`, run without interruption. Without a wallet address it
awaits `connectWallet()` and returns; an error that leaves `connectWallet`
leaves `handlePayment` too. -/
def handlePayment (sdk : Sdk) (s : State) : State × List Effect :=
  if !s.walletAddress.truthy then connectWallet sdk s
  else handlePaymentEnd sdk s.walletAddress (handlePaymentBegin s)

/-- The part of `handleChoice` before the delay: `setPlayerChoice(choice)`. -/
def handleChoiceBegin (choice : Val) (s : State) : State :=
  { s with playerChoice := choice }

/-- The part of `handleChoice` after the delay, with the value `r` of
`Math.random()`. -/
def handleChoiceEnd (choice : Val) (r : ℚ) (s : State) : State :=
  let computer := getComputerChoice r
  let gameResult := determineWinner choice computer
  { s with computerChoice := computer, result := gameResult, gameState := Phase.result }

/-- `handleChoice`, run without interruption. -/
def handleChoice (choice : Val) (r : ℚ) (s : State) : State :=
  handleChoiceEnd choice r (handleChoiceBegin choice s)

/-- `resetGame`. -/
def resetGame (s : State) : State :=
  { s with gameState := Phase.initial, playerChoice := Val.null, computerChoice := Val.null,
           result := Val.null }

/-- The mount effect `getWalletAddress`, after its awaits: a first account, if
the provider lists one, becomes the wallet address; errors are only logged. -/
def getWalletAddress (sdk : Sdk) (s : State) : State × List Effect :=
  match sdk.wallet with
  | none => (s, [])
  | some wallet =>
    match wallet.getEthereumProvider with
    | .error _ => (s, [])
    | .ok none => (s, [])
    | .ok (some provider) =>
      match provider.eth_accounts with
      | .error _ => (s, [Effect.request "eth_accounts" []])
      | .ok (some (account :: _)) =>
        ({ s with walletAddress := Val.str account }, [Effect.request "eth_accounts" []])
      | .ok _ => (s, [Effect.request "eth_accounts" []])


/-! ## The event loop

The handlers are asynchronous: a handler that reaches an `await` is suspended
and the rest of it runs later, on the state of that later moment (the setters
assign absolute values; the only state a suspended handler remembers is what
it captured when it was called). Two adjacent awaits with no state access
between them are one suspension. -/

/-- The component state together with its suspended handlers. -/
structure World where
  /-- The state the screen is rendered from. -/
  ui : State
  /-- Whether the mount effect `getWalletAddress` is still suspended. -/
  querying : Bool
  /-- The number of suspended `connectWallet` calls. -/
  connecting : Nat
  /-- The suspended `handlePayment` calls, each with the wallet address it captured. -/
  paying : List Val
  /-- The suspended `handleChoice` calls in the order of their timers, each with
  its `choice` argument. -/
  revealing : List Val
  deriving DecidableEq, Repr

/-- The component right after mount: default state, mount effect suspended. -/
def World.init : World :=
  { ui := State.init, querying := true, connecting := 0, paying := [], revealing := [] }

/-- The user actions and the completions of suspended handlers. -/
inductive Event where
  /-- Click on "Connect Wallet"; `sdk` tells whether `sdk.wallet` exists. -/
  | clickConnect (sdk : Sdk)
  /-- Click on "Pay & Play". -/
  | clickPay
  /-- Click on "Disconnect". -/
  | clickDisconnect
  /-- Click on the button of `choice` on the playing screen. -/
  | clickChoice (choice : String)
  /-- Click on "Play Again". -/
  | clickPlayAgain
  /-- The mount effect resumes with the answers of the host. -/
  | walletQueried (sdk : Sdk)
  /-- A suspended `connectWallet` resumes with the answers of the host. -/
  | connected (sdk : Sdk)
  /-- The suspended `handlePayment` number `i` resumes with the answers of the host. -/
  | paid (i : Nat) (sdk : Sdk)
  /-- The oldest 500 ms timer fires and `Math.random()` returns the Number `r`. -/
  | revealed (r : ℚ)

/-- One turn of the event loop; `none` when the screen does not offer the
action (the button is not rendered or is disabled) or nothing of that kind is
suspended. -/
def step (e : Event) (w : World) : Option World :=
  match e with
  | .clickConnect sdk =>
    if w.ui.gameState = Phase.initial ∧ w.ui.walletAddress.truthy = false ∧
        w.ui.isConnecting = false then
      match sdk.wallet with
      | none => some { w with ui := (connectWallet sdk w.ui).1 }
      | some _ => some { w with ui := connectWalletBegin w.ui, connecting := w.connecting + 1 }
    else none
  | .clickPay =>
    if w.ui.gameState = Phase.initial ∧ w.ui.walletAddress.truthy = true ∧
        w.ui.isPaying = false then
      some { w with ui := handlePaymentBegin w.ui, paying := w.paying ++ [w.ui.walletAddress] }
    else none
  | .clickDisconnect =>
    if w.ui.gameState = Phase.initial ∧ w.ui.walletAddress.truthy = true then
      some { w with ui := disconnectWallet w.ui }
    else none
  | .clickChoice choice =>
    if w.ui.gameState = Phase.playing ∧ choice ∈ CHOICES then
      some { w with ui := handleChoiceBegin (Val.str choice) w.ui,
                    revealing := w.revealing ++ [Val.str choice] }
    else none
  | .clickPlayAgain =>
    if w.ui.gameState = Phase.result then some { w with ui := resetGame w.ui } else none
  | .walletQueried sdk =>
    if w.querying = true then
      some { w with ui := (getWalletAddress sdk w.ui).1, querying := false }
    else none
  | .connected sdk =>
    if 0 < w.connecting then
      some { w with ui := (connectWalletEnd sdk w.ui).1, connecting := w.connecting - 1 }
    else none
  | .paid i sdk =>
    match w.paying[i]? with
    | some walletAddress =>
      some { w with ui := (handlePaymentEnd sdk walletAddress w.ui).1,
                    paying := w.paying.eraseIdx i }
    | none => none
  | .revealed r =>
    if 0 ≤ r ∧ r < 1 ∧ IsDouble r then
      match w.revealing with
      | choice :: rest => some { w with ui := handleChoiceEnd choice r w.ui, revealing := rest }
      | [] => none
    else none

/-- The world after a sequence of events, when every one of them is possible. -/
def run : List Event → World → Option World
  | [], w => some w
  | e :: es, w =>
    match step e w with
    | some w1 => run es w1
    | none => none

/-- Whether the event is a transaction call that resolves: a suspended
`handlePayment` resumes and its `try` block does not throw. -/
def txResolves (e : Event) (w : World) : Bool :=
  match e with
  | .paid i sdk =>
    match w.paying[i]? with
    | some walletAddress => !(handlePaymentTry sdk walletAddress w.ui).2.2
    | none => false
  | _ => false

/-- The number of transaction calls that resolve along the events. -/
def paymentsResolved : List Event → World → Nat
  | [], _ => 0
  | e :: es, w =>
    match step e w with
    | some w1 => (if txResolves e w then 1 else 0) + paymentsResolved es w1
    | none => 0

/-- The number of turns along the events that take the phase from something
else to `result`. -/
def resultEntries : List Event → World → Nat
  | [], _ => 0
  | e :: es, w =>
    match step e w with
    | some w1 =>
      (if w.ui.gameState ≠ Phase.result ∧ w1.ui.gameState = Phase.result then 1 else 0) +
        resultEntries es w1
    | none => 0

/-- Whether a choice button is clicked while an earlier `handleChoice` is still
waiting for its timer. -/
def overlaps (e : Event) (w : World) : Bool :=
  match e with
  | .clickChoice _ => !w.revealing.isEmpty
  | _ => false

/-- No choice button is clicked along the events while an earlier
`handleChoice` is still waiting for its timer. -/
def serial : List Event → World → Bool
  | [], _ => true
  | e :: es, w =>
    !overlaps e w &&
      match step e w with
      | some w1 => serial es w1
      | none => true

/-- A host whose wallet lists the single account `account`, and accepts every
transaction with hash `"0xhash"`. -/
def goodSdk (account : String) : Sdk :=
  { wallet := some { getEthereumProvider := .ok (some
      { eth_accounts := .ok (some [account]),
        eth_requestAccounts := .ok (some [account]),
        eth_sendTransaction := fun _ => .ok "0xhash" }) } }

/-- One payment, two quick clicks on the playing screen, "Play Again" between
the two reveals. -/
def doubleClickTrace : List Event :=
  [ Event.clickConnect (goodSdk "0xabc"), Event.connected (goodSdk "0xabc"),
    Event.clickPay, Event.paid 0 (goodSdk "0xabc"),
    Event.clickChoice "rock", Event.clickChoice "paper",
    Event.revealed 0, Event.clickPlayAgain, Event.revealed 0 ]

/-! ## The boundaries of the choice generator -/

/-- The least random value on which the rounded product reaches 1:
`1/3 - 1/(3·2^54)`, the largest Number below one third. -/
def paperFrom : ℚ := 6004799503160661 / 2 ^ 54

/-- The least random value on which the rounded product reaches 2:
`2/3 - 1/(3·2^53)`, the largest Number below two thirds. -/
def scissorsFrom : ℚ := 6004799503160661 / 2 ^ 53

/-! ## Reading the configured amounts -/

/-- The number a string of decimal digits denotes. -/
def digitsValue (cs : List Char) : Nat :=
  cs.foldl (fun n c => 10 * n + (c.toNat - 48)) 0

/-- The number a decimal numeral with a fractional part, such as `"0.000001"`,
denotes. -/
def decimalValue (s : String) : ℚ :=
  let whole := s.toList.takeWhile (fun c => c != '.')
  let frac := (s.toList.dropWhile (fun c => c != '.')).drop 1
  (digitsValue whole : ℚ) + (digitsValue frac : ℚ) / (10 : ℚ) ^ frac.length

/-- The value of a lower-case hexadecimal digit. -/
def hexDigit (c : Char) : Nat :=
  if c.toNat < 58 then c.toNat - 48 else c.toNat - 87

/-- The number a `0x`-prefixed lower-case hexadecimal numeral denotes. -/
def hexValue (s : String) : Nat :=
  (s.toList.drop 2).foldl (fun n c => 16 * n + hexDigit c) 0

/-- The transactions among the effects of a handler: the parameters of its
`eth_sendTransaction` requests. -/
def sentTransactions : List Effect → List Tx
  | [] => []
  | Effect.request method params :: rest =>
    if method = "eth_sendTransaction" then params ++ sentTransactions rest
    else sentTransactions rest
  | Effect.alert _ :: rest => sentTransactions rest
  | Effect.uncaught :: rest => sentTransactions rest

/-! ## Failure of the host calls -/

/-- The ways the host makes `connectWallet` fail: no wallet capability, the
provider cannot be obtained or is missing, the account request is rejected, or
it yields no account. -/
def ConnectFails (sdk : Sdk) : Prop :=
  sdk.wallet = none ∨
    ∃ wallet, sdk.wallet = some wallet ∧
      ((∃ e, wallet.getEthereumProvider = .error e) ∨
        wallet.getEthereumProvider = .ok none ∨
        ∃ provider, wallet.getEthereumProvider = .ok (some provider) ∧
          ((∃ e, provider.eth_requestAccounts = .error e) ∨
            provider.eth_requestAccounts = .ok none ∨
            provider.eth_requestAccounts = .ok (some [])))

/-- The ways the host makes the transaction call for `walletAddress` fail: no
wallet capability, the provider cannot be obtained or is missing, or the
request is rejected. -/
def PaymentFails (sdk : Sdk) (walletAddress : Val) : Prop :=
  sdk.wallet = none ∨
    ∃ wallet, sdk.wallet = some wallet ∧
      ((∃ e, wallet.getEthereumProvider = .error e) ∨
        wallet.getEthereumProvider = .ok none ∨
        ∃ provider, wallet.getEthereumProvider = .ok (some provider) ∧
          ∃ e, provider.eth_sendTransaction
            { from_ := walletAddress, to_ := TREASURY_ADDRESS, value := valueInWei } = .error e)

/-- The transaction call for `walletAddress` resolves: the host supplies a
provider and the provider answers the request with a transaction hash. -/
def PaymentResolves (sdk : Sdk) (walletAddress : Val) : Prop :=
  ∃ wallet provider txHash, sdk.wallet = some wallet ∧
    wallet.getEthereumProvider = .ok (some provider) ∧
    provider.eth_sendTransaction
      { from_ := walletAddress, to_ := TREASURY_ADDRESS, value := valueInWei } = .ok txHash

/-- The host rejects a call of `connectWallet` with `null` or `undefined` as the
reason. -/
def NullishRejection (sdk : Sdk) : Prop :=
  ∃ wallet, sdk.wallet = some wallet ∧
    (wallet.getEthereumProvider = .error Err.nullish ∨
      ∃ provider, wallet.getEthereumProvider = .ok (some provider) ∧
        provider.eth_requestAccounts = .error Err.nullish)

/-- The host supplies a provider: `sdk.wallet` exists and
`getEthereumProvider()` resolves to a provider object. -/
def HasProvider (sdk : Sdk) : Prop :=
  ∃ wallet provider, sdk.wallet = some wallet ∧
    wallet.getEthereumProvider = .ok (some provider)

/-- A host without wallet capability. -/
def noWalletSdk : Sdk := { wallet := none }

/-- A host whose `getEthereumProvider()` resolves to no provider. -/
def noProviderSdk : Sdk := { wallet := some { getEthereumProvider := .ok none } }

/-- A host whose provider rejects every request with `message`. -/
def rejectingSdk (message : String) : Sdk :=
  { wallet := some { getEthereumProvider := .ok (some
      { eth_accounts := .error (Err.value message),
        eth_requestAccounts := .error (Err.value message),
        eth_sendTransaction := fun _ => .error (Err.value message) }) } }

/-- A host whose provider rejects every request with `undefined` as the reason. -/
def nullRejectingSdk : Sdk :=
  { wallet := some { getEthereumProvider := .ok (some
      { eth_accounts := .error Err.nullish,
        eth_requestAccounts := .error Err.nullish,
        eth_sendTransaction := fun _ => .error Err.nullish }) } }

/-- The mount state with a payment suspended (`isPaying` set) and no wallet
connected, as after "Pay & Play" followed by "Disconnect". -/
def payingState : State :=
  { State.init with isPaying := true }

/-- The mount state with the wallet `account` connected. -/
def connectedState (account : String) : State :=
  { State.init with walletAddress := Val.str account }

/-! ## Consistency of phase and round -/

/-- The phase and the round fields agree as the data model asks: no round
while playing, a complete round on the result screen. -/
def RoundConsistent (s : State) : Prop :=
  (s.gameState = Phase.playing →
      s.playerChoice = Val.null ∧ s.computerChoice = Val.null ∧ s.result = Val.null) ∧
    (s.gameState = Phase.result →
      s.playerChoice ≠ Val.null ∧ s.computerChoice ≠ Val.null ∧ s.result ≠ Val.null ∧
        s.result = determineWinner s.playerChoice s.computerChoice)

/-- The agreement of phase and round the handlers keep: while playing, no
computer choice and no result exist, and the player's choice is either `null`
or the choice whose reveal is pending; on the result screen the round is
complete and its result is the one `determineWinner` gives. -/
def RoundTracked (w : World) : Prop :=
  (w.ui.gameState = Phase.playing →
      w.ui.computerChoice = Val.null ∧ w.ui.result = Val.null ∧
        ((w.ui.playerChoice = Val.null ∧ w.revealing = []) ∨
          ∃ c, c ∈ CHOICES ∧ w.ui.playerChoice = Val.str c ∧ w.revealing = [Val.str c])) ∧
    (w.ui.gameState = Phase.result →
      w.ui.playerChoice ≠ Val.null ∧ w.ui.computerChoice ≠ Val.null ∧
        w.ui.result ≠ Val.null ∧
        w.ui.result = determineWinner w.ui.playerChoice w.ui.computerChoice)

/-- The invariant of the event loop behind `RoundTracked`: a payment is
suspended exactly while `isPaying` is set, and then the phase is `initial`; in
phase `initial` the round fields are `null` and no reveal is pending; while
playing at most the selected choice awaits its reveal; on the result screen no
reveal is pending and the round is complete. -/
def Inv (w : World) : Prop :=
  (w.paying.length = if w.ui.isPaying = true then 1 else 0) ∧
    (w.ui.isPaying = true → w.ui.gameState = Phase.initial) ∧
    (w.ui.gameState = Phase.initial →
      w.ui.playerChoice = Val.null ∧ w.ui.computerChoice = Val.null ∧
        w.ui.result = Val.null ∧ w.revealing = []) ∧
    (w.ui.gameState = Phase.playing →
      w.ui.computerChoice = Val.null ∧ w.ui.result = Val.null ∧
        ((w.ui.playerChoice = Val.null ∧ w.revealing = []) ∨
          ∃ c, c ∈ CHOICES ∧ w.ui.playerChoice = Val.str c ∧ w.revealing = [Val.str c])) ∧
    (w.ui.gameState = Phase.result →
      w.revealing = [] ∧
        ∃ p c, p ∈ CHOICES ∧ c ∈ CHOICES ∧ w.ui.playerChoice = Val.str p ∧
          w.ui.computerChoice = Val.str c ∧
          w.ui.result = determineWinner (Val.str p) (Val.str c))

/-- One payment and one click on the playing screen, the reveal still pending. -/
def oneClickTrace : List Event :=
  [ Event.clickConnect (goodSdk "0xabc"), Event.connected (goodSdk "0xabc"),
    Event.clickPay, Event.paid 0 (goodSdk "0xabc"), Event.clickChoice "rock" ]


/-! ## The outcome rule -/

theorem determineWinner_total (x y : Val) :
    determineWinner x y = Val.str "win" ∨ determineWinner x y = Val.str "lose" ∨
      determineWinner x y = Val.str "draw" := by
  unfold determineWinner
  split_ifs <;> simp

/-- C1. On every pair of choices `determineWinner` follows the fixed rule: draw
on equal choices, win when the player's choice beats the computer's, lose
otherwise; equal choices draw; and the result, for any two values at all, is
one of win, lose, draw. -/
theorem determineWinner_rule (player computer : String)
    (hp : player ∈ CHOICES) (hc : computer ∈ CHOICES) :
    determineWinner (Val.str player) (Val.str computer) =
        (if player = computer then Val.str "draw"
         else if (player = "rock" ∧ computer = "scissors") ∨
            (player = "paper" ∧ computer = "rock") ∨
            (player = "scissors" ∧ computer = "paper") then Val.str "win"
         else Val.str "lose") ∧
      determineWinner (Val.str player) (Val.str player) = Val.str "draw" ∧
      determineWinner (Val.str computer) (Val.str computer) = Val.str "draw" ∧
      (∀ x y : Val, determineWinner x y = Val.str "win" ∨
        determineWinner x y = Val.str "lose" ∨ determineWinner x y = Val.str "draw") := by
  refine ⟨?_, ?_, ?_, ?_⟩
  · simp only [CHOICES, List.mem_cons, List.mem_singleton, List.not_mem_nil, or_false] at hp hc
    rcases hp with rfl | rfl | rfl <;> rcases hc with rfl | rfl | rfl <;> decide
  · simp [determineWinner]
  · simp [determineWinner]
  · exact determineWinner_total

/-- C1, evaluated on rock against scissors. -/
theorem determineWinner_rule_witness :
    determineWinner (Val.str "rock") (Val.str "scissors") = Val.str "win" := by
  have h := (determineWinner_rule "rock" "scissors" (by decide) (by decide)).1
  simpa using h

/-- C2. On two different choices exactly one direction is a win and the other a
loss, neither is a draw, and the winner is the side the beats-relation names. -/
theorem determineWinner_antisymm (a b : String) (ha : a ∈ CHOICES) (hb : b ∈ CHOICES)
    (hab : a ≠ b) :
    ((determineWinner (Val.str a) (Val.str b) = Val.str "win" ∧
        determineWinner (Val.str b) (Val.str a) = Val.str "lose") ∨
      (determineWinner (Val.str a) (Val.str b) = Val.str "lose" ∧
        determineWinner (Val.str b) (Val.str a) = Val.str "win")) ∧
      determineWinner (Val.str a) (Val.str b) ≠ Val.str "draw" ∧
      determineWinner (Val.str b) (Val.str a) ≠ Val.str "draw" ∧
      (determineWinner (Val.str a) (Val.str b) = Val.str "win" ↔ Beats a b) ∧
      (determineWinner (Val.str b) (Val.str a) = Val.str "win" ↔ Beats b a) := by
  simp only [CHOICES, List.mem_cons, List.mem_singleton, List.not_mem_nil, or_false] at ha hb
  rcases ha with rfl | rfl | rfl <;> rcases hb with rfl | rfl | rfl <;>
    first
      | exact absurd rfl hab
      | decide

/-- C2, evaluated on paper and scissors. -/
theorem determineWinner_antisymm_witness :
    determineWinner (Val.str "paper") (Val.str "scissors") = Val.str "lose" ∧
      determineWinner (Val.str "scissors") (Val.str "paper") = Val.str "win" := by
  have h := determineWinner_antisymm "paper" "scissors" (by decide) (by decide) (by decide)
  rcases h.1 with h1 | h1
  · exact absurd h1.1 (by decide)
  · exact h1


/-! ## Rounding to a Number -/

theorem roundHalfEven_cases (y : ℚ) :
    roundHalfEven y = ⌊y⌋ ∨ roundHalfEven y = ⌊y⌋ + 1 := by
  unfold roundHalfEven
  have hf : Rat.floor y = ⌊y⌋ := rfl
  simp only [hf]
  split_ifs <;> simp

theorem roundHalfEven_lo (k : ℤ) (y : ℚ) (h : (k : ℚ) ≤ y) : k ≤ roundHalfEven y := by
  have hk : k ≤ ⌊y⌋ := Int.le_floor.mpr h
  rcases roundHalfEven_cases y with h1 | h1 <;> omega

theorem roundHalfEven_hi (k : ℤ) (y : ℚ) (h : y < (k : ℚ) - 1 / 2) :
    roundHalfEven y ≤ k - 1 := by
  have hf : Rat.floor y = ⌊y⌋ := rfl
  have hk : ⌊y⌋ < k := Int.floor_lt.mpr (by linarith)
  by_cases hlt : ⌊y⌋ < k - 1
  · rcases roundHalfEven_cases y with h1 | h1 <;> omega
  · have he : ⌊y⌋ = k - 1 := by omega
    unfold roundHalfEven
    simp only [hf, he]
    have : y - ((k - 1 : ℤ) : ℚ) < 1 / 2 := by push_cast; linarith
    rw [if_pos this]

theorem roundHalfEven_le (k : ℤ) (y : ℚ) (h : y ≤ (k : ℚ)) : roundHalfEven y ≤ k := by
  have hf : Rat.floor y = ⌊y⌋ := rfl
  rcases lt_or_eq_of_le h with hlt | heq
  · have hk : ⌊y⌋ < k := Int.floor_lt.mpr hlt
    rcases roundHalfEven_cases y with h1 | h1 <;> omega
  · subst heq
    unfold roundHalfEven
    simp only [hf, Int.floor_intCast, sub_self]
    norm_num

theorem roundHalfEven_tie (k : ℤ) (y : ℚ) (hk : k % 2 = 0) (h1 : (k : ℚ) - 1 / 2 ≤ y)
    (h2 : y < (k : ℚ)) : roundHalfEven y = k := by
  have hf : Rat.floor y = ⌊y⌋ := rfl
  have he : ⌊y⌋ = k - 1 := by
    rw [Int.floor_eq_iff]
    constructor
    · push_cast; linarith
    · push_cast; linarith
  unfold roundHalfEven
  simp only [hf, he]
  have hge : ¬ (y - ((k - 1 : ℤ) : ℚ) < 1 / 2) := by push_cast; linarith
  rw [if_neg hge]
  split_ifs with ha hb
  · ring
  · omega
  · ring

theorem roundDouble_of_exponent (x : ℚ) (e : ℤ) (he : -1022 ≤ e) (h1 : (2 : ℚ) ^ e ≤ x)
    (h2 : x < (2 : ℚ) ^ (e + 1)) :
    roundDouble x = (roundHalfEven (x / (2 : ℚ) ^ (e - 52)) : ℚ) * (2 : ℚ) ^ (e - 52) := by
  have hpos : 0 < x := lt_of_lt_of_le (by positivity) h1
  have hlog : Int.log 2 x = e := by
    apply le_antisymm
    · have := (Int.lt_zpow_iff_log_lt (b := 2) (by norm_num) hpos (x := e + 1)).mp (by exact_mod_cast h2)
      omega
    · exact (Int.zpow_le_iff_le_log (b := 2) (by norm_num) hpos).mp (by exact_mod_cast h1)
  unfold roundDouble
  rw [if_neg (ne_of_gt hpos), abs_of_pos hpos, hlog, max_eq_left he, if_neg (not_lt.mpr hpos.le)]
  simp

theorem roundDouble_small (x : ℚ) (h0 : 0 < x) (h1 : x < 1 / 2) :
    0 ≤ roundDouble x ∧ roundDouble x ≤ 1 / 2 := by
  have hlog : Int.log 2 x < -1 :=
    (Int.lt_zpow_iff_log_lt (b := 2) (by norm_num) h0 (x := -1)).mp (by norm_num; linarith)
  have hup : x < (2 : ℚ) ^ (Int.log 2 x + 1) := by
    exact_mod_cast Int.lt_zpow_succ_log_self (b := 2) (by norm_num) x
  unfold roundDouble
  rw [if_neg (ne_of_gt h0), abs_of_pos h0, if_neg (not_lt.mpr h0.le)]
  simp only [one_mul]
  generalize hE : max (Int.log 2 x) (-1022) = E
  have hE1 : Int.log 2 x ≤ E := by rw [← hE]; exact le_max_left _ _
  have hE2 : E ≤ -2 := by rw [← hE]; exact max_le (by omega) (by norm_num)
  have hq : (0 : ℚ) < (2 : ℚ) ^ (E - 52) := by positivity
  have hxE : x < (2 : ℚ) ^ (E + 1) :=
    lt_of_lt_of_le hup (zpow_le_zpow_right₀ (by norm_num) (by omega))
  have hy : x / (2 : ℚ) ^ (E - 52) ≤ ((2 ^ 53 : ℤ) : ℚ) := by
    rw [div_le_iff₀ hq]
    have : ((2 ^ 53 : ℤ) : ℚ) * (2 : ℚ) ^ (E - 52) = (2 : ℚ) ^ (E + 1) := by
      have : (2 : ℚ) ^ (E + 1) = (2 : ℚ) ^ (53 : ℤ) * (2 : ℚ) ^ (E - 52) := by
        rw [← zpow_add₀ (by norm_num)]; congr 1; ring
      rw [this]; norm_num
    rw [this]; exact hxE.le
  have hr := roundHalfEven_le (2 ^ 53) _ hy
  have hr0 := roundHalfEven_lo 0 (x / (2 : ℚ) ^ (E - 52)) (by push_cast; positivity)
  constructor
  · have : (0 : ℚ) ≤ (roundHalfEven (x / (2 : ℚ) ^ (E - 52)) : ℚ) := by exact_mod_cast hr0
    positivity
  · have hrq : (roundHalfEven (x / (2 : ℚ) ^ (E - 52)) : ℚ) ≤ (2 : ℚ) ^ (53 : ℤ) := by
      have : (roundHalfEven (x / (2 : ℚ) ^ (E - 52)) : ℚ) ≤ ((2 ^ 53 : ℤ) : ℚ) := by exact_mod_cast hr
      refine le_trans this ?_
      norm_num
    calc (roundHalfEven (x / (2 : ℚ) ^ (E - 52)) : ℚ) * (2 : ℚ) ^ (E - 52)
        ≤ (2 : ℚ) ^ (53 : ℤ) * (2 : ℚ) ^ (E - 52) := by
          exact mul_le_mul_of_nonneg_right hrq hq.le
      _ = (2 : ℚ) ^ (E + 1) := by rw [← zpow_add₀ (by norm_num)]; congr 1; ring
      _ ≤ (2 : ℚ) ^ (-1 : ℤ) := zpow_le_zpow_right₀ (by norm_num) (by omega)
      _ = 1 / 2 := by norm_num


theorem roundDouble_zero : roundDouble 0 = 0 := by
  simp [roundDouble]

theorem roundDouble_half_one (x : ℚ) (h1 : 1 / 2 ≤ x) (h2 : x < 1) :
    roundDouble x = (roundHalfEven (x * 2 ^ 53) : ℚ) / 2 ^ 53 := by
  rw [roundDouble_of_exponent x (-1) (by norm_num) (by norm_num; linarith) (by norm_num; linarith)]
  have e1 : (2 : ℚ) ^ ((-1 : ℤ) - 52) = 1 / 2 ^ 53 := by norm_num
  have e2 : x / (1 / 2 ^ 53) = x * 2 ^ 53 := by field_simp
  rw [e1, e2]
  ring

theorem roundDouble_one_two (x : ℚ) (h1 : 1 ≤ x) (h2 : x < 2) :
    roundDouble x = (roundHalfEven (x * 2 ^ 52) : ℚ) / 2 ^ 52 := by
  rw [roundDouble_of_exponent x 0 (by norm_num) (by norm_num; linarith) (by norm_num; linarith)]
  have e1 : (2 : ℚ) ^ ((0 : ℤ) - 52) = 1 / 2 ^ 52 := by norm_num
  have e2 : x / (1 / 2 ^ 52) = x * 2 ^ 52 := by field_simp
  rw [e1, e2]
  ring

theorem roundDouble_two_four (x : ℚ) (h1 : 2 ≤ x) (h2 : x < 4) :
    roundDouble x = (roundHalfEven (x * 2 ^ 51) : ℚ) / 2 ^ 51 := by
  rw [roundDouble_of_exponent x 1 (by norm_num) (by norm_num; linarith) (by norm_num; linarith)]
  have e1 : (2 : ℚ) ^ ((1 : ℤ) - 52) = 1 / 2 ^ 51 := by norm_num
  have e2 : x / (1 / 2 ^ 51) = x * 2 ^ 51 := by field_simp
  rw [e1, e2]
  ring

theorem roundDouble_lt_one (x : ℚ) (h0 : 0 ≤ x) (h1 : x < 1 - 1 / 2 ^ 54) :
    0 ≤ roundDouble x ∧ roundDouble x < 1 := by
  rcases eq_or_lt_of_le h0 with h | hpos
  · rw [← h, roundDouble_zero]; norm_num
  · by_cases hs : x < 1 / 2
    · have := roundDouble_small x hpos hs
      exact ⟨this.1, by linarith [this.2]⟩
    · have hx1 : x < 1 := by linarith [show (0 : ℚ) < 1 / 2 ^ 54 by positivity]
      rw [roundDouble_half_one x (le_of_not_lt hs) hx1]
      have hlo := roundHalfEven_lo 0 (x * 2 ^ 53) (by push_cast; positivity)
      have hhi := roundHalfEven_hi (2 ^ 53) (x * 2 ^ 53) (by push_cast; norm_num at h1 ⊢; linarith)
      have hlo' : (0 : ℚ) ≤ (roundHalfEven (x * 2 ^ 53) : ℚ) := by exact_mod_cast hlo
      have hhi' : (roundHalfEven (x * 2 ^ 53) : ℚ) ≤ 2 ^ 53 - 1 := by exact_mod_cast hhi
      constructor
      · positivity
      · rw [div_lt_one (by positivity)]
        linarith

theorem roundDouble_one_le (x : ℚ) (h0 : 1 - 1 / 2 ^ 54 ≤ x) (h1 : x < 2 - 1 / 2 ^ 53) :
    1 ≤ roundDouble x ∧ roundDouble x < 2 := by
  by_cases hs : x < 1
  · rw [roundDouble_half_one x (by norm_num at h0 ⊢; linarith) hs]
    have ht := roundHalfEven_tie (2 ^ 53) (x * 2 ^ 53) (by norm_num)
      (by push_cast; norm_num at h0 ⊢; linarith) (by push_cast; linarith)
    rw [ht]
    norm_num
  · have hx2 : x < 2 := by linarith [show (0 : ℚ) < 1 / 2 ^ 53 by positivity]
    rw [roundDouble_one_two x (le_of_not_lt hs) hx2]
    have hlo := roundHalfEven_lo (2 ^ 52) (x * 2 ^ 52) (by push_cast; linarith [le_of_not_lt hs])
    have hhi := roundHalfEven_hi (2 ^ 53) (x * 2 ^ 52) (by push_cast; norm_num at h1 ⊢; linarith)
    have hlo' : (2 ^ 52 : ℚ) ≤ (roundHalfEven (x * 2 ^ 52) : ℚ) := by exact_mod_cast hlo
    have hhi' : (roundHalfEven (x * 2 ^ 52) : ℚ) ≤ 2 ^ 53 - 1 := by exact_mod_cast hhi
    constructor
    · rw [le_div_iff₀ (by positivity)]; linarith
    · rw [div_lt_iff₀ (by positivity)]; linarith

theorem roundDouble_two_le (x : ℚ) (h0 : 2 - 1 / 2 ^ 53 ≤ x) (h1 : x < 3 - 1 / 2 ^ 52) :
    2 ≤ roundDouble x ∧ roundDouble x < 3 := by
  by_cases hs : x < 2
  · rw [roundDouble_one_two x (by norm_num at h0 ⊢; linarith) hs]
    have ht := roundHalfEven_tie (2 ^ 53) (x * 2 ^ 52) (by norm_num)
      (by push_cast; norm_num at h0 ⊢; linarith) (by push_cast; linarith)
    rw [ht]
    norm_num
  · have hx4 : x < 4 := by linarith [show (0 : ℚ) < 1 / 2 ^ 52 by positivity]
    rw [roundDouble_two_four x (le_of_not_lt hs) hx4]
    have hlo := roundHalfEven_lo (2 ^ 52) (x * 2 ^ 51) (by push_cast; linarith [le_of_not_lt hs])
    have hhi := roundHalfEven_hi (3 * 2 ^ 51) (x * 2 ^ 51)
      (by push_cast; norm_num at h1 ⊢; linarith)
    have hlo' : (2 ^ 52 : ℚ) ≤ (roundHalfEven (x * 2 ^ 51) : ℚ) := by exact_mod_cast hlo
    have hhi' : (roundHalfEven (x * 2 ^ 51) : ℚ) ≤ 3 * 2 ^ 51 - 1 := by exact_mod_cast hhi
    constructor
    · rw [le_div_iff₀ (by positivity)]; linarith
    · rw [div_lt_iff₀ (by positivity)]; linarith

/-- A binary64 number below 1 is at most `1 - 2^-53`. -/
theorem double_lt_one (r : ℚ) (hd : roundDouble r = r) (h1 : r < 1) : r ≤ 1 - 1 / 2 ^ 53 := by
  by_cases hs : r < 1 / 2
  · norm_num at hs ⊢; linarith
  · rw [roundDouble_half_one r (le_of_not_lt hs) h1] at hd
    generalize roundHalfEven (r * 2 ^ 53) = m at hd
    rw [div_eq_iff (by positivity)] at hd
    have hm : (m : ℚ) < ((2 ^ 53 : ℤ) : ℚ) := by
      rw [hd]; push_cast; linarith
    have hm2 : m ≤ 2 ^ 53 - 1 := by
      have : m < 2 ^ 53 := by exact_mod_cast hm
      omega
    have hm3 : (m : ℚ) ≤ ((2 ^ 53 - 1 : ℤ) : ℚ) := by exact_mod_cast hm2
    rw [hd] at hm3
    push_cast at hm3
    norm_num at hm3 ⊢
    linarith

theorem roundHalfEven_intCast (k : ℤ) : roundHalfEven (k : ℚ) = k :=
  le_antisymm (roundHalfEven_le k k (le_refl _)) (roundHalfEven_lo k k (le_refl _))

/-- A 53-bit significand over `2^53` is a Number. -/
theorem isDouble_of_mantissa (m : ℤ) (h1 : 2 ^ 52 ≤ m) (h2 : m < 2 ^ 53) :
    IsDouble ((m : ℚ) / 2 ^ 53) := by
  have h1q : ((2 ^ 52 : ℤ) : ℚ) ≤ (m : ℚ) := by exact_mod_cast h1
  have h2q : (m : ℚ) < ((2 ^ 53 : ℤ) : ℚ) := by exact_mod_cast h2
  push_cast at h1q h2q
  unfold IsDouble
  rw [roundDouble_half_one _ (by rw [le_div_iff₀ (by positivity)]; linarith)
    (by rw [div_lt_one (by positivity)]; exact h2q)]
  have hm : (m : ℚ) / 2 ^ 53 * 2 ^ 53 = (m : ℚ) := by field_simp
  rw [hm, roundHalfEven_intCast]

theorem isDouble_zero : IsDouble 0 := roundDouble_zero

theorem isDouble_half : IsDouble (1 / 2) := by
  have h := isDouble_of_mantissa (2 ^ 52) (le_refl _) (by norm_num)
  have e : (((2 ^ 52 : ℤ) : ℚ)) / 2 ^ 53 = 1 / 2 := by norm_num
  rw [e] at h
  exact h

theorem isDouble_three_quarters : IsDouble (3 / 4) := by
  have h := isDouble_of_mantissa (3 * 2 ^ 51) (by norm_num) (by norm_num)
  have e : (((3 * 2 ^ 51 : ℤ) : ℚ)) / 2 ^ 53 = 3 / 4 := by norm_num
  rw [e] at h
  exact h

theorem isDouble_scissorsFrom : IsDouble scissorsFrom := by
  have h := isDouble_of_mantissa 6004799503160661 (by norm_num) (by norm_num)
  have e : (((6004799503160661 : ℤ) : ℚ)) / 2 ^ 53 = scissorsFrom := by
    unfold scissorsFrom; norm_num
  rw [e] at h
  exact h

/-! ## The choice generator -/

theorem getComputerChoice_of_floor (r : ℚ) (i : ℕ) (h : ⌊roundDouble (r * 3)⌋ = (i : ℤ)) :
    getComputerChoice r =
      match CHOICES[i]? with
      | some c => Val.str c
      | none => Val.undefined := by
  unfold getComputerChoice
  have h3 : ((CHOICES.length : ℕ) : ℚ) = 3 := by simp [CHOICES]
  have hf : Rat.floor (roundDouble (r * 3)) = ⌊roundDouble (r * 3)⌋ := rfl
  rw [h3, hf, h]
  simp

theorem floor_product_cases (r : ℚ) (hd : IsDouble r) (h0 : 0 ≤ r) (h1 : r < 1) :
    (⌊roundDouble (r * 3)⌋ = 0 ∧ r < paperFrom) ∨
      (⌊roundDouble (r * 3)⌋ = 1 ∧ paperFrom ≤ r ∧ r < scissorsFrom) ∨
      (⌊roundDouble (r * 3)⌋ = 2 ∧ scissorsFrom ≤ r) := by
  unfold paperFrom scissorsFrom
  by_cases a : r < 6004799503160661 / 2 ^ 54
  · left
    refine ⟨?_, a⟩
    have h := roundDouble_lt_one (r * 3) (by positivity) (by norm_num at a ⊢; linarith)
    rw [Int.floor_eq_iff]
    exact ⟨by push_cast; exact h.1, by push_cast; linarith [h.2]⟩
  · by_cases b : r < 6004799503160661 / 2 ^ 53
    · right; left
      refine ⟨?_, le_of_not_lt a, b⟩
      have h := roundDouble_one_le (r * 3) (by norm_num at a ⊢; linarith)
        (by norm_num at b ⊢; linarith)
      rw [Int.floor_eq_iff]
      exact ⟨by push_cast; exact h.1, by push_cast; linarith [h.2]⟩
    · right; right
      refine ⟨?_, le_of_not_lt b⟩
      have hr := double_lt_one r hd h1
      have h := roundDouble_two_le (r * 3) (by norm_num at b ⊢; linarith)
        (by norm_num at hr ⊢; linarith)
      rw [Int.floor_eq_iff]
      exact ⟨by push_cast; exact h.1, by push_cast; linarith [h.2]⟩

theorem getComputerChoice_cases (r : ℚ) (hd : IsDouble r) (h0 : 0 ≤ r) (h1 : r < 1) :
    (⌊roundDouble (r * 3)⌋ = 0 ∧ r < paperFrom ∧ getComputerChoice r = Val.str "rock") ∨
      (⌊roundDouble (r * 3)⌋ = 1 ∧ paperFrom ≤ r ∧ r < scissorsFrom ∧
        getComputerChoice r = Val.str "paper") ∨
      (⌊roundDouble (r * 3)⌋ = 2 ∧ scissorsFrom ≤ r ∧
        getComputerChoice r = Val.str "scissors") := by
  rcases floor_product_cases r hd h0 h1 with ⟨hf, ha⟩ | ⟨hf, ha, hb⟩ | ⟨hf, ha⟩
  · left
    exact ⟨hf, ha, by rw [getComputerChoice_of_floor r 0 (by simpa using hf)]; rfl⟩
  · right; left
    exact ⟨hf, ha, hb, by rw [getComputerChoice_of_floor r 1 (by simpa using hf)]; rfl⟩
  · right; right
    exact ⟨hf, ha, by rw [getComputerChoice_of_floor r 2 (by simpa using hf)]; rfl⟩

theorem getComputerChoice_mem (r : ℚ) (hd : IsDouble r) (h0 : 0 ≤ r) (h1 : r < 1) :
    ∃ c, c ∈ CHOICES ∧ getComputerChoice r = Val.str c := by
  rcases getComputerChoice_cases r hd h0 h1 with ⟨_, _, h⟩ | ⟨_, _, _, h⟩ | ⟨_, _, h⟩
  · exact ⟨"rock", by decide, h⟩
  · exact ⟨"paper", by decide, h⟩
  · exact ⟨"scissors", by decide, h⟩

theorem getComputerChoice_zero : getComputerChoice 0 = Val.str "rock" := by
  rcases getComputerChoice_cases 0 isDouble_zero (by norm_num) (by norm_num) with
    ⟨_, _, h⟩ | ⟨_, ha, _, _⟩ | ⟨_, ha, _⟩
  · exact h
  · unfold paperFrom at ha; norm_num at ha
  · unfold scissorsFrom at ha; norm_num at ha

theorem getComputerChoice_half : getComputerChoice (1 / 2) = Val.str "paper" := by
  rcases getComputerChoice_cases (1 / 2) isDouble_half (by norm_num) (by norm_num) with
    ⟨_, ha, _⟩ | ⟨_, _, _, h⟩ | ⟨_, ha, _⟩
  · unfold paperFrom at ha; norm_num at ha
  · exact h
  · unfold scissorsFrom at ha; norm_num at ha

theorem getComputerChoice_three_quarters :
    getComputerChoice (3 / 4) = Val.str "scissors" := by
  rcases getComputerChoice_cases (3 / 4) isDouble_three_quarters (by norm_num)
      (by norm_num) with
    ⟨_, ha, _⟩ | ⟨_, _, hb, _⟩ | ⟨_, _, h⟩
  · unfold paperFrom at ha; norm_num at ha
  · unfold scissorsFrom at hb; norm_num at hb
  · exact h

theorem getComputerChoice_scissorsFrom :
    getComputerChoice scissorsFrom = Val.str "scissors" := by
  have hlt : scissorsFrom < 1 := by unfold scissorsFrom; norm_num
  have h0 : (0 : ℚ) ≤ scissorsFrom := by unfold scissorsFrom; norm_num
  rcases getComputerChoice_cases scissorsFrom isDouble_scissorsFrom h0 hlt with
    ⟨_, ha, _⟩ | ⟨_, _, hb, _⟩ | ⟨_, _, h⟩
  · unfold paperFrom scissorsFrom at ha; norm_num at ha
  · exact absurd hb (lt_irrefl _)
  · exact h

/-- C9, as stated, fails: `6004799503160661/2^53`, the largest Number below two
thirds, is a value `Math.random()` can return; three times it lies halfway
between two Numbers and rounds up to 2, so `getComputerChoice` returns scissors
although the value is below `2/3`. -/
theorem getComputerChoice_thirds_counterexample :
    IsDouble scissorsFrom ∧ 0 ≤ scissorsFrom ∧ scissorsFrom < 1 ∧ scissorsFrom < 2 / 3 ∧
      getComputerChoice scissorsFrom = Val.str "scissors" ∧
      ¬ (∀ r : ℚ, 0 ≤ r → r < 1 →
          (getComputerChoice r = Val.str "scissors" ↔ 2 / 3 ≤ r)) := by
  have hlt : scissorsFrom < 1 := by unfold scissorsFrom; norm_num
  have h0 : (0 : ℚ) ≤ scissorsFrom := by unfold scissorsFrom; norm_num
  have h23 : scissorsFrom < 2 / 3 := by unfold scissorsFrom; norm_num
  refine ⟨isDouble_scissorsFrom, h0, hlt, h23, getComputerChoice_scissorsFrom, ?_⟩
  intro h
  have h2 := (h scissorsFrom h0 hlt).mp getComputerChoice_scissorsFrom
  exact absurd h2 (not_le.mpr h23)

/-- C9, amended. For a Number `0 ≤ r < 1` the index `floor(3·r)`, the product
rounded to a Number, is 0, 1 or 2, `getComputerChoice` returns the entry of
`CHOICES` at that index and never `undefined`, and it returns rock exactly when
`r < 1/3 - 1/(3·2^54)`, paper exactly from there up to `2/3 - 1/(3·2^53)`
exclusive, scissors exactly from there on: three intervals whose lengths differ
from `1/3` by at most `2^-53`, each holding a Number. -/
theorem getComputerChoice_uniform (r : ℚ) (hd : IsDouble r) (h0 : 0 ≤ r) (h1 : r < 1) :
    (∃ i : ℕ, i < 3 ∧ ⌊roundDouble (r * (CHOICES.length : ℚ))⌋ = (i : ℤ) ∧
        ∃ c, CHOICES[i]? = some c ∧ getComputerChoice r = Val.str c) ∧
      getComputerChoice r ≠ Val.undefined ∧
      (getComputerChoice r = Val.str "rock" ↔ r < paperFrom) ∧
      (getComputerChoice r = Val.str "paper" ↔ paperFrom ≤ r ∧ r < scissorsFrom) ∧
      (getComputerChoice r = Val.str "scissors" ↔ scissorsFrom ≤ r) ∧
      (paperFrom = 1 / 3 - 1 / (3 * 2 ^ 54) ∧ scissorsFrom = 2 / 3 - 1 / (3 * 2 ^ 53)) ∧
      (IsDouble 0 ∧ getComputerChoice 0 = Val.str "rock") ∧
      (IsDouble (1 / 2) ∧ getComputerChoice (1 / 2) = Val.str "paper") ∧
      (IsDouble (3 / 4) ∧ getComputerChoice (3 / 4) = Val.str "scissors") ∧
      (|paperFrom - 0 - 1 / 3| ≤ 1 / 2 ^ 53 ∧ |scissorsFrom - paperFrom - 1 / 3| ≤ 1 / 2 ^ 53 ∧
        |1 - scissorsFrom - 1 / 3| ≤ 1 / 2 ^ 53) := by
  have h3 : ((CHOICES.length : ℕ) : ℚ) = 3 := by simp [CHOICES]
  refine ⟨?_, ?_, ?_, ?_, ?_, ⟨by unfold paperFrom; norm_num, by unfold scissorsFrom; norm_num⟩,
    ⟨isDouble_zero, getComputerChoice_zero⟩, ⟨isDouble_half, getComputerChoice_half⟩,
    ⟨isDouble_three_quarters, getComputerChoice_three_quarters⟩, ?_⟩
  · rw [h3]
    rcases getComputerChoice_cases r hd h0 h1 with ⟨hf, _, h⟩ | ⟨hf, _, _, h⟩ | ⟨hf, _, h⟩
    · exact ⟨0, by norm_num, by simpa using hf, "rock", rfl, h⟩
    · exact ⟨1, by norm_num, by simpa using hf, "paper", rfl, h⟩
    · exact ⟨2, by norm_num, by simpa using hf, "scissors", rfl, h⟩
  · rcases getComputerChoice_cases r hd h0 h1 with ⟨_, _, h⟩ | ⟨_, _, _, h⟩ | ⟨_, _, h⟩ <;>
      rw [h] <;> decide
  · rcases getComputerChoice_cases r hd h0 h1 with ⟨_, ha, h⟩ | ⟨_, ha, _, h⟩ | ⟨_, ha, h⟩
    · exact ⟨fun _ => ha, fun _ => h⟩
    · rw [h]
      constructor
      · intro hx; exact absurd hx (by decide)
      · intro hx; exact absurd hx (not_lt.mpr ha)
    · rw [h]
      constructor
      · intro hx; exact absurd hx (by decide)
      · intro hx
        have : paperFrom ≤ scissorsFrom := by unfold paperFrom scissorsFrom; norm_num
        exact absurd hx (not_lt.mpr (le_trans this ha))
  · rcases getComputerChoice_cases r hd h0 h1 with ⟨_, ha, h⟩ | ⟨_, ha, hb, h⟩ | ⟨_, ha, h⟩
    · rw [h]
      constructor
      · intro hx; exact absurd hx (by decide)
      · intro hx; exact absurd ha (not_lt.mpr hx.1)
    · exact ⟨fun _ => ⟨ha, hb⟩, fun _ => h⟩
    · rw [h]
      constructor
      · intro hx; exact absurd hx (by decide)
      · intro hx; exact absurd hx.2 (not_lt.mpr ha)
  · rcases getComputerChoice_cases r hd h0 h1 with ⟨_, ha, h⟩ | ⟨_, ha, hb, h⟩ | ⟨_, ha, h⟩
    · rw [h]
      constructor
      · intro hx; exact absurd hx (by decide)
      · intro hx
        have : paperFrom ≤ scissorsFrom := by unfold paperFrom scissorsFrom; norm_num
        exact absurd ha (not_lt.mpr (le_trans this hx))
    · rw [h]
      constructor
      · intro hx; exact absurd hx (by decide)
      · intro hx; exact absurd hb (not_lt.mpr hx)
    · exact ⟨fun _ => ha, fun _ => h⟩
  · unfold paperFrom scissorsFrom
    refine ⟨?_, ?_, ?_⟩ <;> rw [abs_le] <;> constructor <;> norm_num

/-- C9 amended, evaluated at the Number `1/2`: the choice is paper. -/
theorem getComputerChoice_uniform_witness :
    IsDouble (1 / 2) ∧ (0 : ℚ) ≤ 1 / 2 ∧ (1 / 2 : ℚ) < 1 ∧
      getComputerChoice (1 / 2) = Val.str "paper" :=
  ⟨isDouble_half, by norm_num, by norm_num,
    (getComputerChoice_uniform (1 / 2) isDouble_half (by norm_num) (by norm_num)).2.2.2.1.mpr
      ⟨by unfold paperFrom; norm_num, by unfold scissorsFrom; norm_num⟩⟩

/-! ## The wallet and payment handlers: case analysis on the host -/

theorem connectWalletTry_cases (sdk : Sdk) (s : State) :
    (ConnectFails sdk ∧ ∃ out e, connectWalletTry sdk s = (s, out, some e) ∧
        sentTransactions out = [] ∧ Effect.uncaught ∉ out ∧
        (∀ message, Effect.alert message ∉ out) ∧
        (e = Err.nullish ↔ NullishRejection sdk)) ∨
      (¬ ConnectFails sdk ∧ ∃ out account,
        connectWalletTry sdk s = ({ s with walletAddress := Val.str account }, out, none) ∧
        sentTransactions out = []) := by
  unfold ConnectFails NullishRejection
  rcases sdk with ⟨_ | ⟨gp⟩⟩
  · left
    simp [connectWalletTry, sentTransactions]
    exact ⟨_, _, ⟨rfl, rfl⟩, by simp [sentTransactions]⟩
  · rcases gp with e | _ | provider
    · left
      simp [connectWalletTry, sentTransactions]
      exact ⟨_, _, ⟨rfl, rfl⟩, by simp [sentTransactions]⟩
    · left
      simp [connectWalletTry, sentTransactions]
      exact ⟨_, _, ⟨rfl, rfl⟩, by simp [sentTransactions]⟩
    · cases h : provider.eth_requestAccounts with
      | error e =>
        left
        simp [connectWalletTry, sentTransactions, h]
        exact ⟨_, _, ⟨rfl, rfl⟩, by simp [sentTransactions]⟩
      | ok accounts =>
        rcases accounts with _ | _ | ⟨account, rest⟩
        · left
          simp [connectWalletTry, sentTransactions, h]
          exact ⟨_, _, ⟨rfl, rfl⟩, by simp [sentTransactions]⟩
        · left
          simp [connectWalletTry, sentTransactions, h]
          exact ⟨_, _, ⟨rfl, rfl⟩, by simp [sentTransactions]⟩
        · right
          simp [connectWalletTry, sentTransactions, h]

theorem handlePaymentTry_cases (sdk : Sdk) (walletAddress : Val) (s : State) :
    (¬ HasProvider sdk ∧ PaymentFails sdk walletAddress ∧
        handlePaymentTry sdk walletAddress s = (s, [], true)) ∨
      (HasProvider sdk ∧ PaymentFails sdk walletAddress ∧
        handlePaymentTry sdk walletAddress s =
          (s, [Effect.request "eth_sendTransaction"
            [{ from_ := walletAddress, to_ := TREASURY_ADDRESS, value := valueInWei }]], true)) ∨
      (HasProvider sdk ∧ ¬ PaymentFails sdk walletAddress ∧
        handlePaymentTry sdk walletAddress s =
          ({ s with gameState := Phase.playing }, [Effect.request "eth_sendTransaction"
            [{ from_ := walletAddress, to_ := TREASURY_ADDRESS, value := valueInWei }]],
            false)) := by
  unfold PaymentFails HasProvider
  rcases sdk with ⟨_ | ⟨gp⟩⟩
  · left
    refine ⟨?_, Or.inl rfl, rfl⟩
    rintro ⟨w, p, hw, _⟩
    simp at hw
  · rcases gp with e | _ | provider
    · left
      refine ⟨?_, Or.inr ⟨_, rfl, Or.inl ⟨e, rfl⟩⟩, rfl⟩
      rintro ⟨w, p, hw, hp⟩
      simp only [Option.some.injEq] at hw; subst hw; simp at hp
    · left
      refine ⟨?_, Or.inr ⟨_, rfl, Or.inr (Or.inl rfl)⟩, rfl⟩
      rintro ⟨w, p, hw, hp⟩
      simp only [Option.some.injEq] at hw; subst hw; simp at hp
    · cases h : provider.eth_sendTransaction
          { from_ := walletAddress, to_ := TREASURY_ADDRESS, value := valueInWei } with
      | error e =>
        right; left
        refine ⟨⟨_, provider, rfl, rfl⟩,
          Or.inr ⟨_, rfl, Or.inr (Or.inr ⟨provider, rfl, e, h⟩)⟩, ?_⟩
        simp only [handlePaymentTry, h]
      | ok txHash =>
        right; right
        refine ⟨⟨_, provider, rfl, rfl⟩, ?_, ?_⟩
        · rintro (h0 | ⟨w, hw, h1 | h1 | ⟨p, hp, e, h2⟩⟩)
          · simp at h0
          · simp only [Option.some.injEq] at hw; subst hw; simp at h1
          · simp only [Option.some.injEq] at hw; subst hw; simp at h1
          · simp only [Option.some.injEq] at hw; subst hw
            simp only [Except.ok.injEq, Option.some.injEq] at hp; subst hp
            rw [h] at h2
            simp at h2
        · simp only [handlePaymentTry, h]

theorem sentTransactions_append (a b : List Effect) :
    sentTransactions (a ++ b) = sentTransactions a ++ sentTransactions b := by
  induction a with
  | nil => rfl
  | cons x rest ih =>
    have ih2 : sentTransactions (rest.append b) =
        sentTransactions rest ++ sentTransactions b := ih
    cases x with
    | alert m => simpa [sentTransactions] using ih
    | uncaught => simpa [sentTransactions] using ih
    | request method params =>
      by_cases hm : method = "eth_sendTransaction"
      · simp only [List.cons_append, sentTransactions, hm, if_true, ih2, List.append_assoc]
      · simp only [List.cons_append, sentTransactions, hm, if_false, ih2]

theorem sentTransactions_append_alert (out : List Effect) (message : String) :
    sentTransactions (out ++ [Effect.alert message]) = sentTransactions out := by
  rw [sentTransactions_append]
  simp [sentTransactions]

theorem sentTransactions_append_uncaught (out : List Effect) :
    sentTransactions (out ++ [Effect.uncaught]) = sentTransactions out := by
  rw [sentTransactions_append]
  simp [sentTransactions]

theorem connectWalletEnd_eq (sdk : Sdk) (s : State) :
    (ConnectFails sdk ∧ (connectWalletEnd sdk s).1 = { s with isConnecting := false } ∧
        sentTransactions (connectWalletEnd sdk s).2 = [] ∧
        ((¬ NullishRejection sdk →
            (∃ message, (connectWalletEnd sdk s).2.getLast? = some (Effect.alert message)) ∧
            Effect.uncaught ∉ (connectWalletEnd sdk s).2) ∧
          (NullishRejection sdk →
            (connectWalletEnd sdk s).2.getLast? = some Effect.uncaught ∧
            ∀ message, Effect.alert message ∉ (connectWalletEnd sdk s).2))) ∨
      (¬ ConnectFails sdk ∧ sentTransactions (connectWalletEnd sdk s).2 = [] ∧
        ∃ account, (connectWalletEnd sdk s).1 =
          { s with walletAddress := Val.str account, isConnecting := false }) := by
  rcases connectWalletTry_cases sdk s with
    ⟨hf, out, e, h, ho, hu, ha, hn⟩ | ⟨hf, out, account, h, ho⟩
  · left
    cases e with
    | nullish =>
      have hnull : NullishRejection sdk := hn.mp rfl
      refine ⟨hf, ?_, ?_, fun hnot => absurd hnull hnot, fun _ => ⟨?_, ?_⟩⟩
      · simp only [connectWalletEnd, h]
      · simp only [connectWalletEnd, h]
        rw [sentTransactions_append_uncaught]
        exact ho
      · simp only [connectWalletEnd, h]
        simp
      · intro message
        simp only [connectWalletEnd, h]
        simp only [List.mem_append, List.mem_singleton, not_or]
        exact ⟨ha message, by simp⟩
    | value message =>
      have hnot : ¬ NullishRejection sdk := fun hx => absurd (hn.mpr hx) (by simp)
      refine ⟨hf, ?_, ?_, fun _ => ⟨⟨connectionAlert message, ?_⟩, ?_⟩,
        fun hx => absurd hx hnot⟩
      · simp only [connectWalletEnd, h]
      · simp only [connectWalletEnd, h]
        rw [sentTransactions_append_alert]
        exact ho
      · simp only [connectWalletEnd, h]
        simp
      · simp only [connectWalletEnd, h]
        simp only [List.mem_append, List.mem_singleton, not_or]
        exact ⟨hu, by simp⟩
  · right
    refine ⟨hf, ?_, account, ?_⟩
    · simp only [connectWalletEnd, h]
      exact ho
    · simp only [connectWalletEnd, h]

theorem handlePaymentEnd_eq (sdk : Sdk) (walletAddress : Val) (s : State) :
    (¬ HasProvider sdk ∧ PaymentFails sdk walletAddress ∧
        handlePaymentEnd sdk walletAddress s =
          ({ s with isPaying := false }, [Effect.alert "Payment failed. Please try again."])) ∨
      (HasProvider sdk ∧ PaymentFails sdk walletAddress ∧
        handlePaymentEnd sdk walletAddress s =
          ({ s with isPaying := false },
            [Effect.request "eth_sendTransaction"
              [{ from_ := walletAddress, to_ := TREASURY_ADDRESS, value := valueInWei }],
             Effect.alert "Payment failed. Please try again."])) ∨
      (HasProvider sdk ∧ ¬ PaymentFails sdk walletAddress ∧
        handlePaymentEnd sdk walletAddress s =
          ({ s with gameState := Phase.playing, isPaying := false },
            [Effect.request "eth_sendTransaction"
              [{ from_ := walletAddress, to_ := TREASURY_ADDRESS, value := valueInWei }]])) := by
  rcases handlePaymentTry_cases sdk walletAddress s with ⟨hp, hf, h⟩ | ⟨hp, hf, h⟩ | ⟨hp, hf, h⟩
  · left
    refine ⟨hp, hf, ?_⟩
    simp only [handlePaymentEnd, h]
    rfl
  · right; left
    refine ⟨hp, hf, ?_⟩
    simp only [handlePaymentEnd, h]
    rfl
  · right; right
    refine ⟨hp, hf, ?_⟩
    simp only [handlePaymentEnd, h]

theorem sentTransactions_single (tx : Tx) :
    sentTransactions [Effect.request "eth_sendTransaction" [tx]] = [tx] := by
  simp [sentTransactions]

theorem sentTransactions_single_alert (tx : Tx) (message : String) :
    sentTransactions [Effect.request "eth_sendTransaction" [tx], Effect.alert message] =
      [tx] := by
  simp [sentTransactions]

/-! ## The handlers run to completion -/

/-- C3. `handleChoice(p)`, once completed with the value `c` the generator
returns, leaves `playerChoice = p`, `computerChoice = c`,
`result = determineWinner(p, c)` and phase `result`, with the wallet address and
both busy flags unchanged; rock against scissors gives `win`; and for a random
Number `0 ≤ r < 1` the value `c` is one of the three choices. -/
theorem handleChoice_resolves (s : State) (p : String) (r : ℚ) :
    (handleChoice (Val.str p) r s).playerChoice = Val.str p ∧
      (handleChoice (Val.str p) r s).computerChoice = getComputerChoice r ∧
      (handleChoice (Val.str p) r s).result =
        determineWinner (Val.str p) (getComputerChoice r) ∧
      (handleChoice (Val.str p) r s).gameState = Phase.result ∧
      (handleChoice (Val.str p) r s).walletAddress = s.walletAddress ∧
      (handleChoice (Val.str p) r s).isConnecting = s.isConnecting ∧
      (handleChoice (Val.str p) r s).isPaying = s.isPaying ∧
      (p = "rock" → getComputerChoice r = Val.str "scissors" →
        (handleChoice (Val.str p) r s).result = Val.str "win" ∧
        (handleChoice (Val.str p) r s).gameState = Phase.result) ∧
      (IsDouble r → 0 ≤ r → r < 1 →
        ∃ c, c ∈ CHOICES ∧ getComputerChoice r = Val.str c ∧
          (handleChoice (Val.str p) r s).computerChoice = Val.str c ∧
          (handleChoice (Val.str p) r s).result = determineWinner (Val.str p) (Val.str c)) := by
  refine ⟨rfl, rfl, rfl, rfl, rfl, rfl, rfl, ?_, ?_⟩
  · rintro rfl hg
    refine ⟨?_, rfl⟩
    show determineWinner (Val.str "rock") (getComputerChoice r) = Val.str "win"
    rw [hg]
    decide
  · intro hd h0 h1
    obtain ⟨c, hc, hg⟩ := getComputerChoice_mem r hd h0 h1
    refine ⟨c, hc, hg, ?_, ?_⟩
    · show getComputerChoice r = Val.str c
      exact hg
    · show determineWinner (Val.str p) (getComputerChoice r) = _
      rw [hg]

/-- C3, evaluated in the playing phase on rock with the random value 3/4: the
generator returns scissors, the result is `win`, the phase is `result`. -/
theorem handleChoice_resolves_witness :
    getComputerChoice (3 / 4) = Val.str "scissors" ∧
      (handleChoice (Val.str "rock") (3 / 4)
        { State.init with gameState := Phase.playing }).result = Val.str "win" ∧
      (handleChoice (Val.str "rock") (3 / 4)
        { State.init with gameState := Phase.playing }).gameState = Phase.result :=
  ⟨getComputerChoice_three_quarters,
    (handleChoice_resolves { State.init with gameState := Phase.playing } "rock"
      (3 / 4)).2.2.2.2.2.2.2.1 rfl getComputerChoice_three_quarters⟩

/-- C7. `resetGame` returns to phase `initial` with the three round fields
`null` and keeps the wallet address and both busy flags; `disconnectWallet`
yields the state `resetGame` yields with the wallet address `null`; from phase
`result` with a wallet connected, `resetGame` gives `initial` with the same
address. -/
theorem reset_and_disconnect (s : State) :
    (resetGame s).gameState = Phase.initial ∧
      (resetGame s).playerChoice = Val.null ∧
      (resetGame s).computerChoice = Val.null ∧
      (resetGame s).result = Val.null ∧
      (resetGame s).walletAddress = s.walletAddress ∧
      (resetGame s).isConnecting = s.isConnecting ∧
      (resetGame s).isPaying = s.isPaying ∧
      disconnectWallet s = { resetGame s with walletAddress := Val.null } ∧
      (s.gameState = Phase.result → s.walletAddress.truthy = true →
        (resetGame s).gameState = Phase.initial ∧
        (resetGame s).walletAddress = s.walletAddress ∧
        (resetGame s).walletAddress.truthy = true ∧
        (disconnectWallet s).walletAddress = Val.null) := by
  refine ⟨rfl, rfl, rfl, rfl, rfl, rfl, rfl, rfl, ?_⟩
  intro _ hw
  exact ⟨rfl, rfl, hw, rfl⟩

/-- C7, evaluated on a result screen with the wallet `0xabc` connected. -/
theorem reset_and_disconnect_witness :
    (resetGame { connectedState "0xabc" with gameState := Phase.result }).gameState =
        Phase.initial ∧
      (resetGame { connectedState "0xabc" with gameState := Phase.result }).walletAddress =
        Val.str "0xabc" :=
  let h := (reset_and_disconnect { connectedState "0xabc" with gameState := Phase.result }).2.2.2.2.2.2.2.2
    rfl (by decide)
  ⟨h.1, h.2.1⟩


theorem not_fails_of_resolves (sdk : Sdk) (walletAddress : Val)
    (h : PaymentResolves sdk walletAddress) : ¬ PaymentFails sdk walletAddress := by
  obtain ⟨wallet, provider, txHash, hw, hp, ht⟩ := h
  rintro (h0 | ⟨w, hw2, h1 | h1 | ⟨p, hp2, e, h2⟩⟩)
  · rw [hw] at h0; simp at h0
  · rw [hw] at hw2; simp only [Option.some.injEq] at hw2; subst hw2
    obtain ⟨e, he⟩ := h1
    rw [hp] at he; simp at he
  · rw [hw] at hw2; simp only [Option.some.injEq] at hw2; subst hw2
    rw [hp] at h1; simp at h1
  · rw [hw] at hw2; simp only [Option.some.injEq] at hw2; subst hw2
    rw [hp] at hp2; simp only [Except.ok.injEq, Option.some.injEq] at hp2; subst hp2
    rw [ht] at h2; simp at h2

theorem resolves_of_not_fails (sdk : Sdk) (walletAddress : Val)
    (h : ¬ PaymentFails sdk walletAddress) : PaymentResolves sdk walletAddress := by
  unfold PaymentFails at h
  unfold PaymentResolves
  rcases sdk with ⟨_ | ⟨gp⟩⟩
  · exact absurd (Or.inl rfl) h
  · rcases gp with e | _ | provider
    · exact absurd (Or.inr ⟨_, rfl, Or.inl ⟨e, rfl⟩⟩) h
    · exact absurd (Or.inr ⟨_, rfl, Or.inr (Or.inl rfl)⟩) h
    · cases ht : provider.eth_sendTransaction
          { from_ := walletAddress, to_ := TREASURY_ADDRESS, value := valueInWei } with
      | error e => exact absurd (Or.inr ⟨_, rfl, Or.inr (Or.inr ⟨provider, rfl, e, ht⟩)⟩) h
      | ok txHash => exact ⟨_, provider, txHash, rfl, rfl, ht⟩

theorem handlePayment_connected (sdk : Sdk) (s : State) (hw : s.walletAddress.truthy = true) :
    handlePayment sdk s = handlePaymentEnd sdk s.walletAddress (handlePaymentBegin s) := by
  simp [handlePayment, hw]

theorem handlePayment_absent (sdk : Sdk) (s : State) (hw : s.walletAddress.truthy = false) :
    handlePayment sdk s = connectWallet sdk s := by
  simp [handlePayment, hw]

theorem connectWallet_eq (sdk : Sdk) (s : State) :
    (ConnectFails sdk ∧ (connectWallet sdk s).1 = { s with isConnecting := false } ∧
        sentTransactions (connectWallet sdk s).2 = [] ∧
        ((¬ NullishRejection sdk →
            (∃ message, (connectWallet sdk s).2.getLast? = some (Effect.alert message)) ∧
            Effect.uncaught ∉ (connectWallet sdk s).2) ∧
          (NullishRejection sdk →
            (connectWallet sdk s).2.getLast? = some Effect.uncaught ∧
            ∀ message, Effect.alert message ∉ (connectWallet sdk s).2))) ∨
      (¬ ConnectFails sdk ∧ sentTransactions (connectWallet sdk s).2 = [] ∧
        ∃ account, (connectWallet sdk s).1 =
          { s with walletAddress := Val.str account, isConnecting := false }) := by
  rcases connectWalletEnd_eq sdk (connectWalletBegin s) with ⟨hf, h1, h2, h3⟩ | ⟨hf, h2, a, h1⟩
  · exact Or.inl ⟨hf, h1, h2, h3⟩
  · exact Or.inr ⟨hf, h2, a, h1⟩

/-- C4. With a wallet address present and a transaction call that resolves, the
state after `handlePayment` has phase `playing` and `isPaying = false`, every
other field unchanged. With the wallet address absent, `handlePayment` is the
connection flow: it sends no transaction and leaves the phase as it was, also
when the connection succeeds. The phase changes only in the first case. -/
theorem handlePayment_to_playing (s : State) (sdk : Sdk) :
    (s.walletAddress.truthy = true → PaymentResolves sdk s.walletAddress →
        (handlePayment sdk s).1 = { s with gameState := Phase.playing, isPaying := false } ∧
        (handlePayment sdk s).1.gameState = Phase.playing ∧
        (handlePayment sdk s).1.isPaying = false ∧
        (handlePayment sdk s).1.walletAddress = s.walletAddress ∧
        (handlePayment sdk s).1.playerChoice = s.playerChoice ∧
        (handlePayment sdk s).1.computerChoice = s.computerChoice ∧
        (handlePayment sdk s).1.result = s.result) ∧
      (s.walletAddress.truthy = false →
        handlePayment sdk s = connectWallet sdk s ∧
        sentTransactions (handlePayment sdk s).2 = [] ∧
        (handlePayment sdk s).1.gameState = s.gameState) ∧
      ((handlePayment sdk s).1.gameState ≠ s.gameState →
        s.walletAddress.truthy = true ∧ PaymentResolves sdk s.walletAddress ∧
        (handlePayment sdk s).1.gameState = Phase.playing) := by
  have absent : s.walletAddress.truthy = false →
      handlePayment sdk s = connectWallet sdk s ∧
      sentTransactions (handlePayment sdk s).2 = [] ∧
      (handlePayment sdk s).1.gameState = s.gameState := by
    intro hw
    rw [handlePayment_absent sdk s hw]
    refine ⟨rfl, ?_, ?_⟩
    · rcases connectWallet_eq sdk s with ⟨_, _, h, _⟩ | ⟨_, h, _⟩ <;> exact h
    · rcases connectWallet_eq sdk s with ⟨_, h, _, _⟩ | ⟨_, _, a, h⟩ <;> rw [h]
  refine ⟨?_, absent, ?_⟩
  · intro hw hr
    have hnf := not_fails_of_resolves sdk s.walletAddress hr
    rw [handlePayment_connected sdk s hw]
    rcases handlePaymentEnd_eq sdk s.walletAddress (handlePaymentBegin s) with
      ⟨_, hf, _⟩ | ⟨_, hf, _⟩ | ⟨_, _, h⟩
    · exact absurd hf hnf
    · exact absurd hf hnf
    · rw [h]
      exact ⟨rfl, rfl, rfl, rfl, rfl, rfl, rfl⟩
  · intro hne
    cases hw : s.walletAddress.truthy with
    | false => exact absurd (absent hw).2.2 hne
    | true =>
      rw [handlePayment_connected sdk s hw] at hne ⊢
      rcases handlePaymentEnd_eq sdk s.walletAddress (handlePaymentBegin s) with
        ⟨_, _, h⟩ | ⟨_, _, h⟩ | ⟨_, hf, h⟩
      · rw [h] at hne; exact absurd rfl hne
      · rw [h] at hne; exact absurd rfl hne
      · rw [h]
        exact ⟨rfl, resolves_of_not_fails sdk s.walletAddress hf, rfl⟩

/-- C4, evaluated on the initial screen with the wallet `0xabc` connected and a
host that accepts the transaction: the phase becomes `playing`. -/
theorem handlePayment_to_playing_witness :
    (handlePayment (goodSdk "0xabc") (connectedState "0xabc")).1.gameState = Phase.playing ∧
      (handlePayment (goodSdk "0xabc") State.init).1.gameState = Phase.initial :=
  ⟨((handlePayment_to_playing (connectedState "0xabc") (goodSdk "0xabc")).1 (by decide)
      ⟨_, _, "0xhash", rfl, rfl, rfl⟩).2.1,
    ((handlePayment_to_playing State.init (goodSdk "0xabc")).2.1 (by decide)).2.2⟩

/-- C5, as stated, fails twice. From the state with a payment suspended, a
failed `connectWallet` leaves `isPaying` set, so the two busy flags are not both
`false` afterwards. And when the provider rejects the account request with
`undefined`, the `catch` block of `connectWallet` throws on `error.message`
before its alert: no alert is shown and the error leaves the handler. -/
theorem failure_contract_counterexample :
    ¬ (∀ (s : State) (sdk : Sdk), ConnectFails sdk →
          (connectWallet sdk s).1.isConnecting = false ∧
          (connectWallet sdk s).1.isPaying = false) ∧
      ¬ (∀ (s : State) (sdk : Sdk), ConnectFails sdk →
          ∃ message, Effect.alert message ∈ (connectWallet sdk s).2) ∧
      (connectWallet (rejectingSdk "User rejected") payingState).1.isPaying = true ∧
      (connectWallet nullRejectingSdk State.init).2 =
        [Effect.request "eth_requestAccounts" [], Effect.uncaught] := by
  have hrej : ConnectFails (rejectingSdk "User rejected") :=
    Or.inr ⟨_, rfl, Or.inr (Or.inr ⟨_, rfl, Or.inl ⟨_, rfl⟩⟩)⟩
  have hnull : ConnectFails nullRejectingSdk :=
    Or.inr ⟨_, rfl, Or.inr (Or.inr ⟨_, rfl, Or.inl ⟨_, rfl⟩⟩)⟩
  refine ⟨?_, ?_, by decide, by decide⟩
  · intro h
    have h1 := (h payingState (rejectingSdk "User rejected") hrej).2
    exact absurd h1 (by decide)
  · intro h
    obtain ⟨message, hm⟩ := h State.init nullRejectingSdk hnull
    have hout : (connectWallet nullRejectingSdk State.init).2 =
        [Effect.request "eth_requestAccounts" [], Effect.uncaught] := by decide
    rw [hout] at hm
    simp at hm

/-- C5, amended. When `connectWallet` fails with a thrown value other than
`null`/`undefined`, or the transaction call of `handlePayment` fails, the error
is caught inside the handler and the handler ends with an alert; phase, wallet
address, `playerChoice`, `computerChoice` and `result` are as before, the
handler's own busy flag is `false` again and the other busy flag is unchanged,
so a handler started with both flags `false` returns the state it was given; a
failed payment from phase `initial` leaves phase `initial`. -/
theorem failure_keeps_state (s : State) (sdk : Sdk) :
    (ConnectFails sdk → ¬ NullishRejection sdk →
        (∃ message, (connectWallet sdk s).2.getLast? = some (Effect.alert message)) ∧
        Effect.uncaught ∉ (connectWallet sdk s).2 ∧
        (connectWallet sdk s).1 = { s with isConnecting := false } ∧
        (connectWallet sdk s).1.gameState = s.gameState ∧
        (connectWallet sdk s).1.walletAddress = s.walletAddress ∧
        (connectWallet sdk s).1.playerChoice = s.playerChoice ∧
        (connectWallet sdk s).1.computerChoice = s.computerChoice ∧
        (connectWallet sdk s).1.result = s.result ∧
        (connectWallet sdk s).1.isConnecting = false ∧
        (connectWallet sdk s).1.isPaying = s.isPaying ∧
        (s.isConnecting = false → (connectWallet sdk s).1 = s)) ∧
      (s.walletAddress.truthy = false → ConnectFails sdk → ¬ NullishRejection sdk →
        (∃ message, (handlePayment sdk s).2.getLast? = some (Effect.alert message)) ∧
        Effect.uncaught ∉ (handlePayment sdk s).2 ∧
        (handlePayment sdk s).1 = { s with isConnecting := false }) ∧
      (s.walletAddress.truthy = true → PaymentFails sdk s.walletAddress →
        (handlePayment sdk s).2.getLast? =
          some (Effect.alert "Payment failed. Please try again.") ∧
        Effect.uncaught ∉ (handlePayment sdk s).2 ∧
        (handlePayment sdk s).1 = { s with isPaying := false } ∧
        (handlePayment sdk s).1.gameState = s.gameState ∧
        (handlePayment sdk s).1.walletAddress = s.walletAddress ∧
        (handlePayment sdk s).1.playerChoice = s.playerChoice ∧
        (handlePayment sdk s).1.computerChoice = s.computerChoice ∧
        (handlePayment sdk s).1.result = s.result ∧
        (handlePayment sdk s).1.isPaying = false ∧
        (handlePayment sdk s).1.isConnecting = s.isConnecting ∧
        (s.isPaying = false → (handlePayment sdk s).1 = s) ∧
        (s.gameState = Phase.initial → (handlePayment sdk s).1.gameState = Phase.initial)) := by
  have hc : ConnectFails sdk → ¬ NullishRejection sdk →
      (∃ message, (connectWallet sdk s).2.getLast? = some (Effect.alert message)) ∧
      Effect.uncaught ∉ (connectWallet sdk s).2 ∧
      (connectWallet sdk s).1 = { s with isConnecting := false } := by
    intro hf hnot
    rcases connectWallet_eq sdk s with ⟨_, h1, _, h3⟩ | ⟨hn, _, _⟩
    · exact ⟨(h3.1 hnot).1, (h3.1 hnot).2, h1⟩
    · exact absurd hf hn
  refine ⟨?_, ?_, ?_⟩
  · intro hf hnot
    obtain ⟨h3, h4, h1⟩ := hc hf hnot
    refine ⟨h3, h4, h1, ?_, ?_, ?_, ?_, ?_, ?_, ?_, ?_⟩
    · rw [h1]
    · rw [h1]
    · rw [h1]
    · rw [h1]
    · rw [h1]
    · rw [h1]
    · rw [h1]
    · intro hi
      rw [h1]
      cases s
      simp only at hi
      subst hi
      rfl
  · intro hw hf hnot
    rw [handlePayment_absent sdk s hw]
    exact hc hf hnot
  · intro hw hf
    rw [handlePayment_connected sdk s hw]
    have key : handlePaymentEnd sdk s.walletAddress (handlePaymentBegin s) =
          ({ s with isPaying := false }, [Effect.alert "Payment failed. Please try again."]) ∨
        handlePaymentEnd sdk s.walletAddress (handlePaymentBegin s) =
          ({ s with isPaying := false },
            [Effect.request "eth_sendTransaction"
              [{ from_ := s.walletAddress, to_ := TREASURY_ADDRESS, value := valueInWei }],
             Effect.alert "Payment failed. Please try again."]) := by
      rcases handlePaymentEnd_eq sdk s.walletAddress (handlePaymentBegin s) with
        ⟨_, _, h⟩ | ⟨_, _, h⟩ | ⟨_, hn, _⟩
      · exact Or.inl h
      · exact Or.inr h
      · exact absurd hf hn
    have frame : ∀ out : List Effect,
        handlePaymentEnd sdk s.walletAddress (handlePaymentBegin s) =
          ({ s with isPaying := false }, out) →
        (handlePaymentEnd sdk s.walletAddress (handlePaymentBegin s)).1 =
            { s with isPaying := false } ∧
          (handlePaymentEnd sdk s.walletAddress (handlePaymentBegin s)).1.gameState =
            s.gameState ∧
          (handlePaymentEnd sdk s.walletAddress (handlePaymentBegin s)).1.walletAddress =
            s.walletAddress ∧
          (handlePaymentEnd sdk s.walletAddress (handlePaymentBegin s)).1.playerChoice =
            s.playerChoice ∧
          (handlePaymentEnd sdk s.walletAddress (handlePaymentBegin s)).1.computerChoice =
            s.computerChoice ∧
          (handlePaymentEnd sdk s.walletAddress (handlePaymentBegin s)).1.result = s.result ∧
          (handlePaymentEnd sdk s.walletAddress (handlePaymentBegin s)).1.isPaying = false ∧
          (handlePaymentEnd sdk s.walletAddress (handlePaymentBegin s)).1.isConnecting =
            s.isConnecting ∧
          (s.isPaying = false →
            (handlePaymentEnd sdk s.walletAddress (handlePaymentBegin s)).1 = s) ∧
          (s.gameState = Phase.initial →
            (handlePaymentEnd sdk s.walletAddress (handlePaymentBegin s)).1.gameState =
              Phase.initial) := by
      intro out h
      rw [h]
      refine ⟨rfl, rfl, rfl, rfl, rfl, rfl, rfl, rfl, ?_, fun hg => hg⟩
      intro hp
      cases s
      simp only at hp
      subst hp
      rfl
    rcases key with h | h
    · refine ⟨by rw [h]; rfl, ?_, frame _ h⟩
      rw [h]
      simp
    · refine ⟨by rw [h]; rfl, ?_, frame _ h⟩
      rw [h]
      simp

/-- C5 amended, evaluated on the initial screen with the wallet `0xabc`
connected and a provider that rejects every request with an error object: both
handlers end with an alert and return the state unchanged. -/
theorem failure_keeps_state_witness :
    ConnectFails (rejectingSdk "User rejected") ∧
      ¬ NullishRejection (rejectingSdk "User rejected") ∧
      PaymentFails (rejectingSdk "User rejected") (Val.str "0xabc") ∧
      (connectWallet (rejectingSdk "User rejected") (connectedState "0xabc")).1 =
        connectedState "0xabc" ∧
      (handlePayment (rejectingSdk "User rejected") (connectedState "0xabc")).1 =
        connectedState "0xabc" :=
  have hf : ConnectFails (rejectingSdk "User rejected") :=
    Or.inr ⟨_, rfl, Or.inr (Or.inr ⟨_, rfl, Or.inl ⟨_, rfl⟩⟩)⟩
  have hn : ¬ NullishRejection (rejectingSdk "User rejected") := by
    rintro ⟨w, hw, h1 | ⟨p, hp, h2⟩⟩
    · simp only [rejectingSdk, Option.some.injEq] at hw
      subst hw
      simp at h1
    · simp only [rejectingSdk, Option.some.injEq] at hw
      subst hw
      simp only [Except.ok.injEq, Option.some.injEq] at hp
      subst hp
      simp at h2
  have hp : PaymentFails (rejectingSdk "User rejected") (Val.str "0xabc") :=
    Or.inr ⟨_, rfl, Or.inr (Or.inr ⟨_, rfl, _, rfl⟩)⟩
  let h := failure_keeps_state (connectedState "0xabc") (rejectingSdk "User rejected")
  ⟨hf, hn, hp, (h.1 hf hn).2.2.2.2.2.2.2.2.2.2 rfl,
    (h.2.2 (by decide) hp).2.2.2.2.2.2.2.2.2.2.1 rfl⟩

/-! ## The submitted transaction -/

theorem valueInWei_eq : valueInWei = "0xe8d4a51000" := by decide

theorem decimalValue_ENTRY_FEE : decimalValue ENTRY_FEE = 1 / 1000000 := by
  have hw : digitsValue (ENTRY_FEE.toList.takeWhile (fun c => c != '.')) = 0 := by decide
  have hf : digitsValue ((ENTRY_FEE.toList.dropWhile (fun c => c != '.')).drop 1) = 1 := by
    decide
  have hl : ((ENTRY_FEE.toList.dropWhile (fun c => c != '.')).drop 1).length = 6 := by decide
  simp only [decimalValue, hw, hf, hl]
  norm_num

theorem handlePayment_sent (s : State) (sdk : Sdk) :
    (s.walletAddress.truthy = true ∧ HasProvider sdk ∧
        sentTransactions (handlePayment sdk s).2 =
          [{ from_ := s.walletAddress, to_ := TREASURY_ADDRESS, value := valueInWei }]) ∨
      (¬ (s.walletAddress.truthy = true ∧ HasProvider sdk) ∧
        sentTransactions (handlePayment sdk s).2 = []) := by
  cases hw : s.walletAddress.truthy with
  | false =>
    right
    refine ⟨fun h => by simp at h, ?_⟩
    rw [handlePayment_absent sdk s hw]
    rcases connectWallet_eq sdk s with ⟨_, _, h, _⟩ | ⟨_, h, _⟩ <;> exact h
  | true =>
    rw [handlePayment_connected sdk s hw]
    rcases handlePaymentEnd_eq sdk s.walletAddress (handlePaymentBegin s) with
      ⟨hp, _, h⟩ | ⟨hp, _, h⟩ | ⟨hp, _, h⟩
    · right
      refine ⟨fun hh => hp hh.2, ?_⟩
      rw [h]
      rfl
    · left
      refine ⟨rfl, hp, ?_⟩
      rw [h]
      exact sentTransactions_single_alert _ _
    · left
      refine ⟨rfl, hp, ?_⟩
      rw [h]
      exact sentTransactions_single _

/-- C10, as stated, fails: with the wallet `0xabc` connected and a host whose
`getEthereumProvider()` yields no provider, `handlePayment` sends no
transaction request although the wallet address is present. -/
theorem handlePayment_request_iff_wallet_counterexample :
    ¬ (∀ (s : State) (sdk : Sdk),
        sentTransactions (handlePayment sdk s).2 ≠ [] ↔ s.walletAddress.truthy = true) := by
  intro h
  have h1 := (h (connectedState "0xabc") noProviderSdk).mpr (by decide)
  exact h1 (by decide)

/-- C10, amended. `handlePayment` sends a transaction request if and only if
the wallet address is present and the host supplies a provider; it sends at
most one; the request has `from` = the current wallet address, `to` =
`TREASURY_ADDRESS` (the zero address) and `value` = `'0xe8d4a51000'`, which
denotes 1,000,000,000,000, the displayed entry fee 0.000001 times 10^18; `to`
and `value` are the same for every state and host. -/
theorem handlePayment_transaction (s : State) (sdk : Sdk) :
    (sentTransactions (handlePayment sdk s).2 ≠ [] ↔
        s.walletAddress.truthy = true ∧ HasProvider sdk) ∧
      (sentTransactions (handlePayment sdk s).2).length ≤ 1 ∧
      (∀ tx, tx ∈ sentTransactions (handlePayment sdk s).2 →
        tx.from_ = s.walletAddress ∧ tx.to_ = TREASURY_ADDRESS ∧
        tx.value = "0xe8d4a51000") ∧
      TREASURY_ADDRESS = "0x0000000000000000000000000000000000000000" ∧
      hexValue "0xe8d4a51000" = 1000000000000 ∧
      decimalValue ENTRY_FEE = 1 / 1000000 ∧
      decimalValue ENTRY_FEE * 10 ^ 18 = ((hexValue "0xe8d4a51000" : ℕ) : ℚ) ∧
      (∀ (s' : State) (sdk' : Sdk) (tx tx' : Tx),
        tx ∈ sentTransactions (handlePayment sdk s).2 →
        tx' ∈ sentTransactions (handlePayment sdk' s').2 →
        tx.to_ = tx'.to_ ∧ tx.value = tx'.value) := by
  have hex : hexValue "0xe8d4a51000" = 1000000000000 := by decide
  have fields : ∀ (s0 : State) (sdk0 : Sdk) (tx : Tx),
      tx ∈ sentTransactions (handlePayment sdk0 s0).2 →
      tx.from_ = s0.walletAddress ∧ tx.to_ = TREASURY_ADDRESS ∧ tx.value = "0xe8d4a51000" := by
    intro s0 sdk0 tx htx
    rcases handlePayment_sent s0 sdk0 with ⟨_, _, h⟩ | ⟨_, h⟩
    · rw [h, List.mem_singleton] at htx
      subst htx
      exact ⟨rfl, rfl, valueInWei_eq⟩
    · rw [h] at htx
      exact absurd htx (List.not_mem_nil _)
  refine ⟨?_, ?_, fields s sdk, rfl, hex, decimalValue_ENTRY_FEE, ?_, ?_⟩
  · rcases handlePayment_sent s sdk with ⟨hw, hp, h⟩ | ⟨hn, h⟩
    · rw [h]
      exact ⟨fun _ => ⟨hw, hp⟩, fun _ => by simp⟩
    · rw [h]
      exact ⟨fun hh => absurd rfl hh, fun hh => absurd hh hn⟩
  · rcases handlePayment_sent s sdk with ⟨_, _, h⟩ | ⟨_, h⟩ <;> rw [h] <;> simp
  · rw [decimalValue_ENTRY_FEE, hex]
    norm_num
  · intro s' sdk' tx tx' htx htx'
    obtain ⟨_, h1, h2⟩ := fields s sdk tx htx
    obtain ⟨_, h1', h2'⟩ := fields s' sdk' tx' htx'
    exact ⟨h1.trans h1'.symm, h2.trans h2'.symm⟩

/-- C10 amended, evaluated with the wallet `0xabc` connected and a host that
accepts the transaction: the one request sent goes from `0xabc` to the zero
address with value `0xe8d4a51000`. -/
theorem handlePayment_transaction_witness :
    ({ from_ := Val.str "0xabc", to_ := TREASURY_ADDRESS, value := valueInWei } : Tx) ∈
        sentTransactions (handlePayment (goodSdk "0xabc") (connectedState "0xabc")).2 ∧
      valueInWei = "0xe8d4a51000" :=
  ⟨by decide,
    ((handlePayment_transaction (connectedState "0xabc") (goodSdk "0xabc")).2.2.1
      { from_ := Val.str "0xabc", to_ := TREASURY_ADDRESS, value := valueInWei }
      (by decide)).2.2⟩


/-! ## The event loop: payment gate and round consistency -/

/-- C6, on the code: one resolved payment, two quick clicks on the playing
screen and "Play Again" between the two reveals take the phase into `result`
twice; the second time from `initial`, with no player choice on record. -/
theorem doubleClick_enters_result_twice :
    run doubleClickTrace World.init =
        some { ui := { gameState := Phase.result, playerChoice := Val.null,
                       computerChoice := Val.str "rock", result := Val.str "win",
                       walletAddress := Val.str "0xabc", isConnecting := false,
                       isPaying := false },
               querying := true, connecting := 0, paying := [], revealing := [] } ∧
      resultEntries doubleClickTrace World.init = 2 ∧
      paymentsResolved doubleClickTrace World.init = 1 ∧
      ¬ (resultEntries doubleClickTrace World.init ≤
          paymentsResolved doubleClickTrace World.init) := by
  with_unfolding_all decide

/-- C8, as stated, fails: after one payment and one click on rock the phase is
`playing` and `playerChoice` is already `'rock'`. -/
theorem roundConsistent_counterexample :
    ¬ (∀ (evs : List Event) (w : World),
        run evs World.init = some w → RoundConsistent w.ui) := by
  intro h
  have hrun : run oneClickTrace World.init =
      some { ui := { gameState := Phase.playing, playerChoice := Val.str "rock",
                     computerChoice := Val.null, result := Val.null,
                     walletAddress := Val.str "0xabc", isConnecting := false,
                     isPaying := false },
             querying := true, connecting := 0, paying := [],
             revealing := [Val.str "rock"] } := by
    decide
  have h1 := (h _ _ hrun).1 rfl
  exact absurd h1.1 (by decide)


theorem getWalletAddress_frame (sdk : Sdk) (s : State) :
    ∃ address, (getWalletAddress sdk s).1 = { s with walletAddress := address } := by
  rcases sdk with ⟨_ | ⟨gp⟩⟩
  · exact ⟨s.walletAddress, rfl⟩
  · rcases gp with e | _ | provider
    · exact ⟨s.walletAddress, rfl⟩
    · exact ⟨s.walletAddress, rfl⟩
    · cases h : provider.eth_accounts with
      | error e =>
        refine ⟨s.walletAddress, ?_⟩
        simp only [getWalletAddress, h]
      | ok accounts =>
        rcases accounts with _ | _ | ⟨account, rest⟩
        · refine ⟨s.walletAddress, ?_⟩
          simp only [getWalletAddress, h]
        · refine ⟨s.walletAddress, ?_⟩
          simp only [getWalletAddress, h]
        · refine ⟨Val.str account, ?_⟩
          simp only [getWalletAddress, h]

theorem connectWalletEnd_frame (sdk : Sdk) (s : State) :
    ∃ address, (connectWalletEnd sdk s).1 =
      { s with walletAddress := address, isConnecting := false } := by
  rcases connectWalletEnd_eq sdk s with ⟨_, h, _, _⟩ | ⟨_, _, account, h⟩
  · exact ⟨s.walletAddress, h⟩
  · exact ⟨Val.str account, h⟩

/-- The invariant depends only on the phase, the round fields, `isPaying` and
the suspended payments and reveals. -/
theorem Inv_of_frame (w w1 : World) (h : Inv w)
    (hg : w1.ui.gameState = w.ui.gameState) (hp : w1.ui.playerChoice = w.ui.playerChoice)
    (hc : w1.ui.computerChoice = w.ui.computerChoice) (hr : w1.ui.result = w.ui.result)
    (hi : w1.ui.isPaying = w.ui.isPaying) (hpay : w1.paying = w.paying)
    (hrev : w1.revealing = w.revealing) : Inv w1 := by
  unfold Inv at h ⊢
  rw [hg, hp, hc, hr, hi, hpay, hrev]
  exact h

theorem Inv_init : Inv World.init := by
  refine ⟨rfl, ?_, ?_, ?_, ?_⟩
  · intro h; exact absurd h (by decide)
  · intro _; exact ⟨rfl, rfl, rfl, rfl⟩
  · intro h; exact absurd h (by decide)
  · intro h; exact absurd h (by decide)

theorem Inv_step (e : Event) (w w1 : World) (h : Inv w) (hser : overlaps e w = false)
    (hstep : step e w = some w1) : Inv w1 := by
  obtain ⟨I1, I2, I3, I4, I5⟩ := h
  cases e with
  | clickConnect sdk =>
    simp only [step] at hstep
    split_ifs at hstep with hc
    rcases hsw : sdk.wallet with _ | wallet
    · rw [hsw] at hstep
      simp only [Option.some.injEq] at hstep
      subst hstep
      obtain ⟨a, ha⟩ := connectWalletEnd_frame sdk (connectWalletBegin w.ui)
      have hu : (connectWallet sdk w.ui).1 =
          { connectWalletBegin w.ui with walletAddress := a, isConnecting := false } := ha
      exact Inv_of_frame w _ ⟨I1, I2, I3, I4, I5⟩ (by rw [hu]; rfl) (by rw [hu]; rfl)
        (by rw [hu]; rfl) (by rw [hu]; rfl) (by rw [hu]; rfl) rfl rfl
    · rw [hsw] at hstep
      simp only [Option.some.injEq] at hstep
      subst hstep
      exact Inv_of_frame w _ ⟨I1, I2, I3, I4, I5⟩ rfl rfl rfl rfl rfl rfl rfl
  | walletQueried sdk =>
    simp only [step] at hstep
    split_ifs at hstep with hc
    simp only [Option.some.injEq] at hstep
    subst hstep
    obtain ⟨a, ha⟩ := getWalletAddress_frame sdk w.ui
    exact Inv_of_frame w _ ⟨I1, I2, I3, I4, I5⟩ (by simp only [ha]) (by simp only [ha])
      (by simp only [ha]) (by simp only [ha]) (by simp only [ha]) rfl rfl
  | connected sdk =>
    simp only [step] at hstep
    split_ifs at hstep with hc
    simp only [Option.some.injEq] at hstep
    subst hstep
    obtain ⟨a, ha⟩ := connectWalletEnd_frame sdk w.ui
    exact Inv_of_frame w _ ⟨I1, I2, I3, I4, I5⟩ (by simp only [ha]) (by simp only [ha])
      (by simp only [ha]) (by simp only [ha]) (by simp only [ha]) rfl rfl
  | clickPay =>
    simp only [step] at hstep
    split_ifs at hstep with hc
    simp only [Option.some.injEq] at hstep
    subst hstep
    obtain ⟨hg, _, hp⟩ := hc
    have hlen : w.paying.length = 0 := by rw [I1, hp]; rfl
    refine ⟨?_, fun _ => hg, I3, ?_, ?_⟩
    · show (w.paying ++ [w.ui.walletAddress]).length = 1
      rw [List.length_append, hlen]
      rfl
    · intro h
      have h2 : w.ui.gameState = Phase.playing := h
      rw [hg] at h2
      exact absurd h2 (by decide)
    · intro h
      have h2 : w.ui.gameState = Phase.result := h
      rw [hg] at h2
      exact absurd h2 (by decide)
  | clickDisconnect =>
    simp only [step] at hstep
    split_ifs at hstep with hc
    simp only [Option.some.injEq] at hstep
    subst hstep
    obtain ⟨hg, _⟩ := hc
    refine ⟨I1, fun _ => rfl, fun _ => ⟨rfl, rfl, rfl, (I3 hg).2.2.2⟩, ?_, ?_⟩
    · intro h
      have h2 : Phase.initial = Phase.playing := h
      exact absurd h2 (by decide)
    · intro h
      have h2 : Phase.initial = Phase.result := h
      exact absurd h2 (by decide)
  | clickChoice choice =>
    have hempty : w.revealing = [] := by
      simp only [overlaps, Bool.not_eq_false', List.isEmpty_iff] at hser
      exact hser
    simp only [step] at hstep
    split_ifs at hstep with hc
    simp only [Option.some.injEq] at hstep
    subst hstep
    obtain ⟨hg, hmem⟩ := hc
    refine ⟨I1, I2, ?_, ?_, ?_⟩
    · intro h
      have h2 : w.ui.gameState = Phase.initial := h
      rw [hg] at h2
      exact absurd h2 (by decide)
    · intro _
      refine ⟨(I4 hg).1, (I4 hg).2.1, Or.inr ⟨choice, hmem, rfl, ?_⟩⟩
      show w.revealing ++ [Val.str choice] = [Val.str choice]
      rw [hempty]
      rfl
    · intro h
      have h2 : w.ui.gameState = Phase.result := h
      rw [hg] at h2
      exact absurd h2 (by decide)
  | clickPlayAgain =>
    simp only [step] at hstep
    split_ifs at hstep with hc
    simp only [Option.some.injEq] at hstep
    subst hstep
    refine ⟨I1, fun _ => rfl, fun _ => ⟨rfl, rfl, rfl, (I5 hc).1⟩, ?_, ?_⟩
    · intro h
      have h2 : Phase.initial = Phase.playing := h
      exact absurd h2 (by decide)
    · intro h
      have h2 : Phase.initial = Phase.result := h
      exact absurd h2 (by decide)
  | paid i sdk =>
    simp only [step] at hstep
    cases hget : w.paying[i]? with
    | none => rw [hget] at hstep; exact absurd hstep (by simp)
    | some walletAddress =>
      rw [hget] at hstep
      simp only [Option.some.injEq] at hstep
      subst hstep
      have hi : i < w.paying.length := by
        by_contra hn
        rw [List.getElem?_eq_none (Nat.le_of_not_lt hn)] at hget
        exact absurd hget (by simp)
      have hpay : w.ui.isPaying = true := by
        by_contra hn
        rw [I1, if_neg hn] at hi
        exact absurd hi (Nat.not_lt_zero i)
      have hlen : w.paying.length = 1 := by rw [I1, if_pos hpay]
      have hg : w.ui.gameState = Phase.initial := I2 hpay
      have herase : w.paying.eraseIdx i = [] := by
        have h0 : i = 0 := by omega
        subst h0
        match hw : w.paying, hlen with
        | [x], _ => rfl
      obtain ⟨hpc, hcc, hres, hrev⟩ := I3 hg
      rcases handlePaymentEnd_eq sdk walletAddress w.ui with
        ⟨_, _, h⟩ | ⟨_, _, h⟩ | ⟨_, _, h⟩
      · refine ⟨?_, ?_, ?_, ?_, ?_⟩
        · show (w.paying.eraseIdx i).length = _
          rw [herase, h]
          rfl
        · intro hp
          rw [h] at hp
          have h2 : false = true := hp
          exact absurd h2 (by decide)
        · intro _
          rw [h]
          exact ⟨hpc, hcc, hres, hrev⟩
        · intro hx
          rw [h] at hx
          have h2 : w.ui.gameState = Phase.playing := hx
          rw [hg] at h2
          exact absurd h2 (by decide)
        · intro hx
          rw [h] at hx
          have h2 : w.ui.gameState = Phase.result := hx
          rw [hg] at h2
          exact absurd h2 (by decide)
      · refine ⟨?_, ?_, ?_, ?_, ?_⟩
        · show (w.paying.eraseIdx i).length = _
          rw [herase, h]
          rfl
        · intro hp
          rw [h] at hp
          have h2 : false = true := hp
          exact absurd h2 (by decide)
        · intro _
          rw [h]
          exact ⟨hpc, hcc, hres, hrev⟩
        · intro hx
          rw [h] at hx
          have h2 : w.ui.gameState = Phase.playing := hx
          rw [hg] at h2
          exact absurd h2 (by decide)
        · intro hx
          rw [h] at hx
          have h2 : w.ui.gameState = Phase.result := hx
          rw [hg] at h2
          exact absurd h2 (by decide)
      · refine ⟨?_, ?_, ?_, ?_, ?_⟩
        · show (w.paying.eraseIdx i).length = _
          rw [herase, h]
          rfl
        · intro hp
          rw [h] at hp
          have h2 : false = true := hp
          exact absurd h2 (by decide)
        · intro hx
          rw [h] at hx
          have h2 : Phase.playing = Phase.initial := hx
          exact absurd h2 (by decide)
        · intro _
          rw [h]
          exact ⟨hcc, hres, Or.inl ⟨hpc, hrev⟩⟩
        · intro hx
          rw [h] at hx
          have h2 : Phase.playing = Phase.result := hx
          exact absurd h2 (by decide)
  | revealed r =>
    simp only [step] at hstep
    split_ifs at hstep with hc
    cases hrev : w.revealing with
    | nil => rw [hrev] at hstep; exact absurd hstep (by simp)
    | cons choice rest =>
      rw [hrev] at hstep
      simp only [Option.some.injEq] at hstep
      subst hstep
      have hg : w.ui.gameState = Phase.playing := by
        cases hph : w.ui.gameState with
        | initial =>
          have := (I3 hph).2.2.2
          rw [hrev] at this
          exact absurd this (by simp)
        | playing => rfl
        | result =>
          have := (I5 hph).1
          rw [hrev] at this
          exact absurd this (by simp)
      obtain ⟨_, _, hsel⟩ := I4 hg
      rcases hsel with ⟨_, hnil⟩ | ⟨p, hpm, hpc, hone⟩
      · rw [hrev] at hnil
        exact absurd hnil (by simp)
      · rw [hrev] at hone
        simp only [List.cons.injEq] at hone
        obtain ⟨hch, hrest⟩ := hone
        subst hch hrest
        obtain ⟨c, hcm, hcomp⟩ := getComputerChoice_mem r hc.2.2 hc.1 hc.2.1
        refine ⟨I1, ?_, ?_, ?_, ?_⟩
        · intro hp
          have h2 := I2 hp
          rw [hg] at h2
          exact absurd h2 (by decide)
        · intro hx
          have h2 : Phase.result = Phase.initial := hx
          exact absurd h2 (by decide)
        · intro hx
          have h2 : Phase.result = Phase.playing := hx
          exact absurd h2 (by decide)
        · intro _
          refine ⟨rfl, p, c, hpm, hcm, hpc, ?_, ?_⟩
          · show getComputerChoice r = Val.str c
            exact hcomp
          · show determineWinner (Val.str p) (getComputerChoice r) = _
            rw [hcomp]


theorem Inv_run (evs : List Event) :
    ∀ w0 w : World, Inv w0 → run evs w0 = some w → serial evs w0 = true → Inv w := by
  induction evs with
  | nil =>
    intro w0 w h hrun _
    simp only [run, Option.some.injEq] at hrun
    subst hrun
    exact h
  | cons e es ih =>
    intro w0 w h hrun hser
    simp only [run] at hrun
    simp only [serial, Bool.and_eq_true, Bool.not_eq_true'] at hser
    cases hstep : step e w0 with
    | none => rw [hstep] at hrun; exact absurd hrun (by simp)
    | some w1 =>
      rw [hstep] at hrun
      have hs := hser.2
      rw [hstep] at hs
      exact ih w1 w (Inv_step e w0 w1 h hser.1 hstep) hrun hs

theorem RoundTracked_of_Inv (w : World) (h : Inv w) : RoundTracked w := by
  obtain ⟨_, _, _, I4, I5⟩ := h
  refine ⟨I4, ?_⟩
  intro hg
  obtain ⟨_, p, c, hp, hc, hpc, hcc, hres⟩ := I5 hg
  have hout := determineWinner_total (Val.str p) (Val.str c)
  rw [hpc, hcc, hres]
  refine ⟨by simp, by simp, ?_, rfl⟩
  rcases hout with h1 | h1 | h1 <;> rw [h1] <;> simp

/-- C8, amended. In every state reached from the mount state by the user
actions the screen offers and the completions of the suspended handlers, along
an execution in which no choice button is clicked while an earlier choice still
awaits its reveal: in phase `playing`, `computerChoice` and `result` are `null`
and `playerChoice` is `null` or the choice whose reveal is pending; in phase
`result` the three round fields are non-null and
`result = determineWinner(playerChoice, computerChoice)`. -/
theorem roundTracked_of_serial (evs : List Event) (w : World)
    (hrun : run evs World.init = some w) (hser : serial evs World.init = true) :
    RoundTracked w :=
  RoundTracked_of_Inv w (Inv_run evs World.init w Inv_init hrun hser)

/-- C8 amended, evaluated after one payment and one click on rock: the phase is
`playing`, nothing is revealed yet and `playerChoice` is the pending choice. -/
theorem roundTracked_of_serial_witness :
    run oneClickTrace World.init =
        some { ui := { gameState := Phase.playing, playerChoice := Val.str "rock",
                       computerChoice := Val.null, result := Val.null,
                       walletAddress := Val.str "0xabc", isConnecting := false,
                       isPaying := false },
               querying := true, connecting := 0, paying := [],
               revealing := [Val.str "rock"] } ∧
      serial oneClickTrace World.init = true ∧
      RoundTracked { ui := { gameState := Phase.playing, playerChoice := Val.str "rock",
                             computerChoice := Val.null, result := Val.null,
                             walletAddress := Val.str "0xabc", isConnecting := false,
                             isPaying := false },
                     querying := true, connecting := 0, paying := [],
                     revealing := [Val.str "rock"] } :=
  ⟨by decide, by decide, roundTracked_of_serial oneClickTrace _ (by decide) (by decide)⟩

/-! ## The payment gate without overlapping clicks -/

/-- One turn that respects the invariant and starts no overlapping choice
spends a play credit when it enters `result` and earns one only from a
transaction call that resolves. -/
theorem credit_step (e : Event) (w w1 : World) (h : Inv w) (hser : overlaps e w = false)
    (hstep : step e w = some w1) :
    (if w.ui.gameState ≠ Phase.result ∧ w1.ui.gameState = Phase.result then 1 else 0) +
        (if w1.ui.gameState = Phase.playing then 1 else 0) ≤
      (if txResolves e w = true then 1 else 0) +
        (if w.ui.gameState = Phase.playing then 1 else 0) := by
  have same : w1.ui.gameState = w.ui.gameState →
      (if w.ui.gameState ≠ Phase.result ∧ w1.ui.gameState = Phase.result then 1 else 0) +
          (if w1.ui.gameState = Phase.playing then 1 else 0) ≤
        (if txResolves e w = true then 1 else 0) +
          (if w.ui.gameState = Phase.playing then 1 else 0) := by
    intro hg
    rw [hg]
    have hno : ¬ (w.ui.gameState ≠ Phase.result ∧ w.ui.gameState = Phase.result) :=
      fun hh => hh.1 hh.2
    rw [if_neg hno]
    omega
  have toInitial : w1.ui.gameState = Phase.initial →
      (if w.ui.gameState ≠ Phase.result ∧ w1.ui.gameState = Phase.result then 1 else 0) +
          (if w1.ui.gameState = Phase.playing then 1 else 0) ≤
        (if txResolves e w = true then 1 else 0) +
          (if w.ui.gameState = Phase.playing then 1 else 0) := by
    intro hg
    rw [hg]
    have hno : ¬ (w.ui.gameState ≠ Phase.result ∧ Phase.initial = Phase.result) :=
      fun hh => absurd hh.2 (by decide)
    have hnp : ¬ (Phase.initial = Phase.playing) := by decide
    rw [if_neg hno, if_neg hnp]
    omega
  obtain ⟨I1, I2, I3, I4, I5⟩ := h
  cases e with
  | clickConnect sdk =>
    simp only [step] at hstep
    split_ifs at hstep with hc
    rcases hsw : sdk.wallet with _ | wallet
    · rw [hsw] at hstep
      simp only [Option.some.injEq] at hstep
      subst hstep
      obtain ⟨a, ha⟩ := connectWalletEnd_frame sdk (connectWalletBegin w.ui)
      have hu : (connectWallet sdk w.ui).1 =
          { connectWalletBegin w.ui with walletAddress := a, isConnecting := false } := ha
      exact same (by rw [hu]; rfl)
    · rw [hsw] at hstep
      simp only [Option.some.injEq] at hstep
      subst hstep
      exact same rfl
  | walletQueried sdk =>
    simp only [step] at hstep
    split_ifs at hstep with hc
    simp only [Option.some.injEq] at hstep
    subst hstep
    obtain ⟨a, ha⟩ := getWalletAddress_frame sdk w.ui
    exact same (by simp only [ha])
  | connected sdk =>
    simp only [step] at hstep
    split_ifs at hstep with hc
    simp only [Option.some.injEq] at hstep
    subst hstep
    obtain ⟨a, ha⟩ := connectWalletEnd_frame sdk w.ui
    exact same (by simp only [ha])
  | clickPay =>
    simp only [step] at hstep
    split_ifs at hstep with hc
    simp only [Option.some.injEq] at hstep
    subst hstep
    exact same rfl
  | clickDisconnect =>
    simp only [step] at hstep
    split_ifs at hstep with hc
    simp only [Option.some.injEq] at hstep
    subst hstep
    exact toInitial rfl
  | clickChoice choice =>
    simp only [step] at hstep
    split_ifs at hstep with hc
    simp only [Option.some.injEq] at hstep
    subst hstep
    exact same rfl
  | clickPlayAgain =>
    simp only [step] at hstep
    split_ifs at hstep with hc
    simp only [Option.some.injEq] at hstep
    subst hstep
    exact toInitial rfl
  | paid i sdk =>
    simp only [step] at hstep
    cases hget : w.paying[i]? with
    | none => rw [hget] at hstep; exact absurd hstep (by simp)
    | some walletAddress =>
      rw [hget] at hstep
      simp only [Option.some.injEq] at hstep
      have hui : w1.ui = (handlePaymentEnd sdk walletAddress w.ui).1 := by rw [← hstep]
      have htx : txResolves (Event.paid i sdk) w =
          !(handlePaymentTry sdk walletAddress w.ui).2.2 := by
        simp only [txResolves, hget]
      rcases handlePaymentTry_cases sdk walletAddress w.ui with
        ⟨_, _, h⟩ | ⟨_, _, h⟩ | ⟨_, _, h⟩
      · have hg : w1.ui.gameState = w.ui.gameState := by
          rw [hui]
          simp only [handlePaymentEnd, h]
        exact same hg
      · have hg : w1.ui.gameState = w.ui.gameState := by
          rw [hui]
          simp only [handlePaymentEnd, h]
        exact same hg
      · have hg : w1.ui.gameState = Phase.playing := by
          rw [hui]
          simp only [handlePaymentEnd, h]
        rw [hg, htx, h]
        have hno : ¬ (w.ui.gameState ≠ Phase.result ∧ Phase.playing = Phase.result) :=
          fun hh => absurd hh.2 (by decide)
        rw [if_neg hno]
        simp
  | revealed r =>
    simp only [step] at hstep
    split_ifs at hstep with hc
    cases hrev : w.revealing with
    | nil => rw [hrev] at hstep; exact absurd hstep (by simp)
    | cons choice rest =>
      rw [hrev] at hstep
      simp only [Option.some.injEq] at hstep
      subst hstep
      have hg : w.ui.gameState = Phase.playing := by
        cases hph : w.ui.gameState with
        | initial =>
          have := (I3 hph).2.2.2
          rw [hrev] at this
          exact absurd this (by simp)
        | playing => rfl
        | result =>
          have := (I5 hph).1
          rw [hrev] at this
          exact absurd this (by simp)
      have h1 : ({ w with ui := handleChoiceEnd choice r w.ui, revealing := rest } :
          World).ui.gameState = Phase.result := rfl
      rw [h1, hg]
      simp

/-- Along an execution in which no choice button is clicked while an earlier
choice still awaits its reveal, the number of entries into `result` never
exceeds the number of transaction calls that resolved. -/
theorem gate_run (evs : List Event) :
    ∀ w : World, Inv w → serial evs w = true →
      resultEntries evs w ≤
        paymentsResolved evs w + (if w.ui.gameState = Phase.playing then 1 else 0) := by
  induction evs with
  | nil =>
    intro w _ _
    simp [resultEntries]
  | cons e es ih =>
    intro w h hser
    simp only [serial, Bool.and_eq_true, Bool.not_eq_true'] at hser
    simp only [resultEntries, paymentsResolved]
    cases hstep : step e w with
    | none => simp
    | some w1 =>
      have hs := hser.2
      rw [hstep] at hs
      have h1 := ih w1 (Inv_step e w w1 h hser.1 hstep) hs
      have h2 := credit_step e w w1 h hser.1 hstep
      simp only []
      omega

theorem gate_of_serial (evs : List Event) (hser : serial evs World.init = true) :
    resultEntries evs World.init ≤ paymentsResolved evs World.init := by
  have h := gate_run evs World.init Inv_init hser
  have h0 : ¬ (World.init.ui.gameState = Phase.playing) := by decide
  rw [if_neg h0] at h
  exact h

end Game
